import Mathlib

/-!
Verification of the Huffman coder in `src/huffman.hpp` (with `src/main.cpp` a
near-duplicate standalone variant). The C++ is shallowly embedded: bytes are
`Nat` (values 0..255), the bit strings of `'0'`/`'1'` characters are
`List Bool` (`false` = `'0'`, `true` = `'1'`), `std::map<uint8_t, ...>` is a
key-sorted association list, and `std::priority_queue` is modelled by the
underlying vector together with libstdc++'s `__push_heap` / `__adjust_heap`
algorithms, transcribed literally, so that the element order (including the
behaviour on equal frequencies) matches the compiled program. Crashes and
undefined behaviour (a failing `assert`, a null-pointer dereference) are
modelled as `none`.
-/

namespace Huffman

/-- `enum huff_type`. -/
inductive HType where
  | INTERNAL
  | LEAF
deriving DecidableEq, Repr

/-- `struct huff_code { uint8_t val; uint32_t freq; std::string code; }`;
the constructor default is `val = ' '` (32), `freq = 1`, `code = ""`. -/
structure HuffCode where
  val : Nat
  freq : Nat
  code : List Bool
deriving DecidableEq, Repr

/-- `struct huff_node { huff_code data; huff_node *left, *right; huff_type type; }`.
A `huff_node*` value is either the null pointer (`null`) or a node. -/
inductive HNode where
  | null
  | mk (data : HuffCode) (left : HNode) (right : HNode) (type : HType)
deriving DecidableEq

/-- `p->data` (the `null` case is unreachable at every use site: the C++
would be a null dereference there). -/
def HNode.data : HNode → HuffCode
  | .null => ⟨32, 1, []⟩
  | .mk d _ _ _ => d

def HNode.left : HNode → HNode
  | .null => .null
  | .mk _ l _ _ => l

def HNode.right : HNode → HNode
  | .null => .null
  | .mk _ _ r _ => r

def HNode.type : HNode → HType
  | .null => .LEAF
  | .mk _ _ _ t => t

/-- The `getD` fallback for vector accesses that the source never performs
out of range. -/
def dNode : HNode := .null

/-- `huff_node::Compare::operator()(a, b) = a->data.freq > b->data.freq`. -/
def hcomp (a b : HNode) : Bool := decide (b.data.freq < a.data.freq)

/-- libstdc++ `std::__push_heap(first, holeIndex, topIndex, value)`:
sift `value` up from `holeIndex` towards `topIndex`, moving parents down.
The loop is fuel-indexed so that it reduces in the kernel; `holeIndex`
strictly decreases, so any fuel `≥ hole` runs the loop to its exit, and at
fuel 0 (only reachable with `hole = 0`) the guard is false anyway, so the
base case is the loop exit itself. -/
def pushHeapF : Nat → List HNode → Nat → Nat → HNode → List HNode
  | 0, c, hole, _, v => c.set hole v
  | fuel + 1, c, hole, top, v =>
    if top < hole ∧ hcomp (c.getD ((hole - 1) / 2) dNode) v = true then
      pushHeapF fuel (c.set hole (c.getD ((hole - 1) / 2) dNode))
        ((hole - 1) / 2) top v
    else c.set hole v

/-- `std::__push_heap` with the fuel instantiated to `hole`. -/
def pushHeapAux (c : List HNode) (hole top : Nat) (v : HNode) : List HNode :=
  pushHeapF hole c hole top v

/-- The child index libstdc++ `__adjust_heap` descends to from `second`:
`secondChild = 2 * (secondChild + 1)`, decremented when the comparison
prefers the first child. -/
def chooseChild (c : List HNode) (second : Nat) : Nat :=
  if hcomp (c.getD (2 * (second + 1)) dNode) (c.getD (2 * (second + 1) - 1) dNode)
  then 2 * (second + 1) - 1 else 2 * (second + 1)

theorem chooseChild_gt (c : List HNode) (second : Nat) :
    second < chooseChild c second := by
  unfold chooseChild
  split <;> omega

theorem chooseChild_le (c : List HNode) (second : Nat) :
    chooseChild c second ≤ 2 * (second + 1) := by
  unfold chooseChild
  split <;> omega

/-- The descent loop of libstdc++ `__adjust_heap` (the hole runs down the
heap, always to the preferred child), fuel-indexed: `secondChild` strictly
increases while the guard needs `secondChild < (len-1)/2`, so any fuel
`≥ (len-1)/2 - second` runs the loop to its exit, and at fuel 0 the base case
equals the loop exit. Returns the final list, hole index and `secondChild`. -/
def adjustLoopF : Nat → List HNode → Nat → Nat → Nat → List HNode × Nat × Nat
  | 0, c, hole, second, _ => (c, hole, second)
  | fuel + 1, c, hole, second, len =>
    if second < (len - 1) / 2 then
      adjustLoopF fuel (c.set hole (c.getD (chooseChild c second) dNode))
        (chooseChild c second) (chooseChild c second) len
    else (c, hole, second)

/-- The `__adjust_heap` descent loop with the fuel instantiated to `len`. -/
def adjustLoop (c : List HNode) (hole second len : Nat) :
    List HNode × Nat × Nat :=
  adjustLoopF len c hole second len

/-- libstdc++ `std::__adjust_heap(first, 0, len, value)`: descend the hole to
the bottom, handle the even-length final step, then sift `value` up. Every
call in `priority_queue::pop` has `holeIndex = topIndex = 0`. -/
def adjustHeap (c : List HNode) (len : Nat) (v : HNode) : List HNode :=
  match adjustLoop c 0 0 len with
  | (c1, hole1, second1) =>
    if len % 2 = 0 ∧ second1 = (len - 2) / 2 then
      pushHeapAux (c1.set hole1 (c1.getD (2 * (second1 + 1) - 1) dNode))
        (2 * (second1 + 1) - 1) 0 v
    else pushHeapAux c1 hole1 0 v

/-- `priority_queue::push`: `push_back` then `std::push_heap`. -/
def pqPush (c : List HNode) (v : HNode) : List HNode :=
  pushHeapAux (c ++ [v]) c.length 0 v

/-- `priority_queue::top`: the front of the vector. -/
def pqTop (c : List HNode) : HNode := c.getD 0 dNode

/-- `priority_queue::pop`: `std::pop_heap` (a no-op for size ≤ 1) then
`pop_back`. -/
def pqPop (c : List HNode) : List HNode :=
  if c.length ≤ 1 then c.dropLast
  else
    let n := c.length
    let v := c.getD (n - 1) dNode
    let c1 := c.set (n - 1) (c.getD 0 dNode)
    (adjustHeap c1 (n - 1) v).dropLast


/-- One `std::map` insertion step of `huff_tree::_maps_generator`: a new key
gets a node with `freq = 1` (the `huff_code` constructor default), an existing
key has its `freq` incremented. The map iterates in ascending key order. -/
def mapInsert (m : List (Nat × Nat)) (k : Nat) : List (Nat × Nat) :=
  match m with
  | [] => [(k, 1)]
  | (k', f) :: rest =>
    if k < k' then (k, 1) :: (k', f) :: rest
    else if k = k' then (k', f + 1) :: rest
    else (k', f) :: mapInsert rest k

/-- `huff_tree::_maps_generator`: count the frequency of each byte of `src`. -/
def mapsGenerator (src : List Nat) : List (Nat × Nat) :=
  src.foldl mapInsert []

/-- `for (auto &pair : _map) q.push(pair.second)`: one leaf per distinct
symbol, pushed in ascending symbol order. -/
def initQueue (m : List (Nat × Nat)) : List HNode :=
  m.foldl (fun q kv => pqPush q (HNode.mk ⟨kv.1, kv.2, []⟩ .null .null .LEAF)) []

/-- One iteration of the `while (q.size() >= 2)` loop of `huff_tree::_build`:
pop the two front nodes and push an `INTERNAL` parent whose `freq` is their
sum (`huff_code(' ', l + r)`, so `val = 32` and an empty code). -/
def buildStep (q : List HNode) : List HNode :=
  let l := pqTop q
  let q1 := pqPop q
  let r := pqTop q1
  let q2 := pqPop q1
  pqPush q2 (HNode.mk ⟨32, l.data.freq + r.data.freq, []⟩ l r .INTERNAL)

theorem pushHeapF_length (fuel : Nat) : ∀ (c : List HNode) (hole top : Nat)
    (v : HNode), (pushHeapF fuel c hole top v).length = c.length := by
  induction fuel with
  | zero => intro c hole top v; simp [pushHeapF]
  | succ n ih =>
    intro c hole top v
    simp only [pushHeapF]
    split
    · rw [ih, List.length_set]
    · simp

theorem pushHeapAux_length (c : List HNode) (hole top : Nat) (v : HNode) :
    (pushHeapAux c hole top v).length = c.length := pushHeapF_length ..

theorem adjustLoopF_length (fuel : Nat) : ∀ (c : List HNode)
    (hole second len : Nat),
    (adjustLoopF fuel c hole second len).1.length = c.length := by
  induction fuel with
  | zero => intro c hole second len; simp [adjustLoopF]
  | succ n ih =>
    intro c hole second len
    simp only [adjustLoopF]
    split
    · rw [ih, List.length_set]
    · simp

theorem adjustLoop_length (c : List HNode) (hole second len : Nat) :
    (adjustLoop c hole second len).1.length = c.length := adjustLoopF_length ..

theorem adjustHeap_length (c : List HNode) (len : Nat) (v : HNode) :
    (adjustHeap c len v).length = c.length := by
  have hal := adjustLoop_length c 0 0 len
  rcases hr : adjustLoop c 0 0 len with ⟨c1, hole1, second1⟩
  rw [hr] at hal
  simp only [adjustHeap, hr]
  split <;> simp [pushHeapAux_length, hal]

theorem pqPush_length (c : List HNode) (v : HNode) :
    (pqPush c v).length = c.length + 1 := by
  unfold pqPush
  rw [pushHeapAux_length]
  simp

theorem pqPop_length (c : List HNode) :
    (pqPop c).length = c.length - 1 := by
  unfold pqPop
  split
  · simp
  · simp [adjustHeap_length]

theorem buildStep_length (q : List HNode) (h : 2 ≤ q.length) :
    (buildStep q).length = q.length - 1 := by
  unfold buildStep
  rw [pqPush_length, pqPop_length, pqPop_length]
  omega

/-- The `while (q.size() >= 2)` loop of `huff_tree::_build`, fuel-indexed:
each iteration shrinks the queue by one, so any fuel `≥ q.length - 1` runs
the loop to its exit, and at fuel 0 the base case equals the loop exit. -/
def buildLoopF : Nat → List HNode → List HNode
  | 0, q => q
  | fuel + 1, q => if 2 ≤ q.length then buildLoopF fuel (buildStep q) else q

/-- The `while (q.size() >= 2)` loop with the fuel instantiated to
`q.length`. -/
def buildLoop (q : List HNode) : List HNode :=
  buildLoopF q.length q

/-! ## Permutation facts about the heap operations: every `push_heap` /
`pop_heap` rearranges the vector, so the queue's content is preserved as a
multiset. -/

theorem getD_perm_cons_eraseIdx {α : Type _} (d : α) :
    ∀ (c : List α) (i : Nat), i < c.length →
      List.Perm c (c.getD i d :: c.eraseIdx i)
  | a :: rest, 0, _ => by simp
  | a :: rest, i + 1, h => by
    have ih := getD_perm_cons_eraseIdx d rest i (by simpa using h)
    have h1 : List.Perm (a :: rest) (a :: rest.getD i d :: rest.eraseIdx i) :=
      ih.cons a
    have h2 : List.Perm (a :: rest.getD i d :: rest.eraseIdx i)
        (rest.getD i d :: a :: rest.eraseIdx i) := List.Perm.swap _ _ _
    simpa [List.getD_cons_succ] using h1.trans h2

theorem set_perm_cons_eraseIdx {α : Type _} :
    ∀ (c : List α) (i : Nat) (v : α), i < c.length →
      List.Perm (c.set i v) (v :: c.eraseIdx i)
  | a :: rest, 0, v, _ => by simp
  | a :: rest, i + 1, v, h => by
    have ih := set_perm_cons_eraseIdx rest i v (by simpa using h)
    have h1 : List.Perm (a :: rest.set i v) (a :: v :: rest.eraseIdx i) :=
      ih.cons a
    have h2 : List.Perm (a :: v :: rest.eraseIdx i)
        (v :: a :: rest.eraseIdx i) := List.Perm.swap _ _ _
    simpa [List.set_cons_succ] using h1.trans h2

/-- Writing `c[j]` into slot `i` and then `v` into slot `j` is, up to
permutation, just writing `v` into slot `i` (the value `c[i]` is the one
lost either way). -/
theorem set_set_swap_perm {α : Type _} (d : α) :
    ∀ (c : List α) (i j : Nat) (v : α), i < c.length → j < c.length → i ≠ j →
      List.Perm ((c.set i (c.getD j d)).set j v) (c.set i v)
  | a :: rest, 0, 0, v, _, _, hij => absurd rfl hij
  | a :: rest, 0, j + 1, v, hi, hj, _ => by
    have hj' : j < rest.length := by simpa using hj
    have h1 := (set_perm_cons_eraseIdx rest j v hj').cons (rest.getD j d)
    have h2 : List.Perm (rest.getD j d :: v :: rest.eraseIdx j)
        (v :: rest.getD j d :: rest.eraseIdx j) := List.Perm.swap _ _ _
    have h3 := ((getD_perm_cons_eraseIdx d rest j hj').symm).cons v
    simpa [List.getD_cons_succ] using (h1.trans h2).trans h3
  | a :: rest, i + 1, 0, v, hi, _, _ => by
    have hi' : i < rest.length := by simpa using hi
    have h1 := (set_perm_cons_eraseIdx rest i a hi').cons v
    have h2 : List.Perm (v :: a :: rest.eraseIdx i)
        (a :: v :: rest.eraseIdx i) := List.Perm.swap _ _ _
    have h3 := ((set_perm_cons_eraseIdx rest i v hi').symm).cons a
    simpa [List.set_cons_succ] using (h1.trans h2).trans h3
  | a :: rest, i + 1, j + 1, v, hi, hj, hij => by
    have hi' : i < rest.length := by simpa using hi
    have hj' : j < rest.length := by simpa using hj
    have hij' : i ≠ j := fun h => hij (by rw [h])
    have ih := (set_set_swap_perm d rest i j v hi' hj' hij').cons a
    simpa [List.set_cons_succ, List.getD_cons_succ] using ih

theorem getD_set_ne {α : Type _} (d : α) (l : List α) (i j : Nat) (x : α)
    (h : i ≠ j) : (l.set i x).getD j d = l.getD j d := by
  simp [List.getD_eq_getElem?_getD, List.getElem?_set_ne h]

theorem getD_set_self {α : Type _} (d : α) (l : List α) (i : Nat) (x : α)
    (h : i < l.length) : (l.set i x).getD i d = x := by
  simp [List.getD_eq_getElem?_getD, List.getElem?_set_self, h]

theorem getD_append_length {α : Type _} (d : α) (l : List α) (b : α) :
    (l ++ [b]).getD l.length d = b := by
  simp [List.getD_eq_getElem?_getD]

theorem set_append_length {α : Type _} :
    ∀ (l : List α) (v w : α), (l ++ [v]).set l.length w = l ++ [w]
  | [], v, w => rfl
  | a :: rest, v, w => by
    simp [List.set_cons_succ, set_append_length rest v w]

theorem getD_eq_getLast {α : Type _} (d : α) (l : List α) (h : l ≠ []) :
    l.getLast h = l.getD (l.length - 1) d := by
  rw [List.getLast_eq_getElem]
  have hlt : l.length - 1 < l.length := by
    have : 0 < l.length := List.length_pos.mpr h
    omega
  rw [List.getD_eq_getElem?_getD, List.getElem?_eq_getElem hlt]
  rfl

theorem dropLast_append_getD {α : Type _} (d : α) (l : List α) (h : l ≠ []) :
    l.dropLast ++ [l.getD (l.length - 1) d] = l := by
  rw [← getD_eq_getLast d l h]
  exact List.dropLast_append_getLast h

theorem pushHeapF_perm (fuel : Nat) : ∀ (c : List HNode) (hole top : Nat)
    (v : HNode), hole < c.length →
    List.Perm (pushHeapF fuel c hole top v) (c.set hole v) := by
  induction fuel with
  | zero => intro c hole top v _; simp [pushHeapF]
  | succ n ih =>
    intro c hole top v hlt
    simp only [pushHeapF]
    split
    · next h =>
      have hhole1 : 1 ≤ hole := Nat.lt_of_le_of_lt (Nat.zero_le _) h.1
      have hpar : (hole - 1) / 2 < hole :=
        Nat.lt_of_le_of_lt (Nat.div_le_self _ _) (by omega)
      have hparlen : (hole - 1) / 2 < c.length := Nat.lt_trans hpar hlt
      have h1 := ih (c.set hole (c.getD ((hole - 1) / 2) dNode))
        ((hole - 1) / 2) top v (by simpa using hparlen)
      have h2 := set_set_swap_perm dNode c hole ((hole - 1) / 2) v hlt hparlen
        (by omega)
      exact h1.trans h2
    · exact List.Perm.refl _

theorem pushHeapF_getD_high (fuel : Nat) : ∀ (c : List HNode)
    (hole top : Nat) (v : HNode) (j : Nat), hole < j →
    (pushHeapF fuel c hole top v).getD j dNode = c.getD j dNode := by
  induction fuel with
  | zero =>
    intro c hole top v j hj
    show (c.set hole v).getD j dNode = c.getD j dNode
    exact getD_set_ne _ _ _ _ _ (by omega)
  | succ n ih =>
    intro c hole top v j hj
    simp only [pushHeapF]
    split
    · next h =>
      have hpar : (hole - 1) / 2 < hole := by
        have : 1 ≤ hole := Nat.lt_of_le_of_lt (Nat.zero_le _) h.1
        exact Nat.lt_of_le_of_lt (Nat.div_le_self _ _) (by omega)
      rw [ih _ _ _ _ _ (by omega), getD_set_ne _ _ _ _ _ (by omega)]
    · exact getD_set_ne _ _ _ _ _ (by omega)

theorem pqPush_perm (c : List HNode) (v : HNode) :
    List.Perm (pqPush c v) (v :: c) := by
  have h1 := pushHeapF_perm c.length (c ++ [v]) c.length 0 v (by simp)
  rw [set_append_length] at h1
  exact h1.trans (List.perm_append_singleton v c)

theorem adjustLoopF_spec (fuel : Nat) : ∀ (c : List HNode) (hole len : Nat),
    hole < len → len ≤ c.length →
    (adjustLoopF fuel c hole hole len).2.1 = (adjustLoopF fuel c hole hole len).2.2 ∧
    (adjustLoopF fuel c hole hole len).2.1 < len ∧
    (adjustLoopF fuel c hole hole len).1.length = c.length ∧
    (∀ v, List.Perm
      ((adjustLoopF fuel c hole hole len).1.set (adjustLoopF fuel c hole hole len).2.1 v)
      (c.set hole v)) ∧
    (∀ j, len ≤ j →
      (adjustLoopF fuel c hole hole len).1.getD j dNode = c.getD j dNode) := by
  induction fuel with
  | zero =>
    intro c hole len h1 h2
    exact ⟨rfl, h1, rfl, fun v => List.Perm.refl _, fun j _ => rfl⟩
  | succ n ih =>
    intro c hole len h1 h2
    simp only [adjustLoopF]
    split
    · next h =>
      have hs2gt : hole < chooseChild c hole := chooseChild_gt c hole
      have hs2le : chooseChild c hole ≤ 2 * (hole + 1) := chooseChild_le c hole
      have hs2len : chooseChild c hole < len := by
        have hh : hole + 1 ≤ (len - 1) / 2 := h
        have : 2 * (hole + 1) ≤ 2 * ((len - 1) / 2) := by omega
        have h2d : 2 * ((len - 1) / 2) ≤ len - 1 := Nat.mul_div_le (len - 1) 2
        omega
      have ihs := ih (c.set hole (c.getD (chooseChild c hole) dNode))
        (chooseChild c hole) len hs2len (by simpa using h2)
      obtain ⟨he, hlt, hlen, hperm, htail⟩ := ihs
      refine ⟨he, hlt, by simpa using hlen, ?_, ?_⟩
      · intro v
        refine (hperm v).trans ?_
        exact set_set_swap_perm dNode c hole (chooseChild c hole) v
          (Nat.lt_of_lt_of_le h1 h2) (Nat.lt_of_lt_of_le hs2len h2) (by omega)
      · intro j hj
        rw [htail j hj, getD_set_ne _ _ _ _ _ (by omega)]
    · exact ⟨rfl, h1, rfl, fun v => List.Perm.refl _, fun j _ => rfl⟩

theorem pushHeapAux_perm (c : List HNode) (hole top : Nat) (v : HNode)
    (h : hole < c.length) :
    List.Perm (pushHeapAux c hole top v) (c.set hole v) :=
  pushHeapF_perm hole c hole top v h

theorem pushHeapAux_getD_high (c : List HNode) (hole top : Nat) (v : HNode)
    (j : Nat) (h : hole < j) :
    (pushHeapAux c hole top v).getD j dNode = c.getD j dNode :=
  pushHeapF_getD_high hole c hole top v j h

theorem adjustHeap_spec (c : List HNode) (len : Nat) (v : HNode)
    (hl : 1 ≤ len) (hc : len ≤ c.length) :
    List.Perm (adjustHeap c len v) (c.set 0 v) ∧
    ∀ j, len ≤ j → (adjustHeap c len v).getD j dNode = c.getD j dNode := by
  have hspec := adjustLoopF_spec len c 0 len hl hc
  have hr : adjustLoop c 0 0 len = adjustLoopF len c 0 0 len := rfl
  rcases hq : adjustLoopF len c 0 0 len with ⟨c1, h1, s1⟩
  rw [hq] at hspec
  obtain ⟨he, hlt, hlen, hperm, htail⟩ := hspec
  simp only at he hlt hlen hperm htail
  simp only [adjustHeap, hr, hq]
  split
  · next hcond =>
    have hlen2 : 2 ≤ len := by
      rcases hcond with ⟨hev, _⟩
      omega
    have hx : 2 * (s1 + 1) = len := by
      have hs1 : s1 = (len - 2) / 2 := hcond.2
      have hd : 2 * ((len - 2) / 2) = len - 2 := by omega
      omega
    have hh2 : 2 * (s1 + 1) - 1 = len - 1 := by omega
    have hidx : 2 * (s1 + 1) - 1 < c1.length := by
      rw [hlen]; omega
    have hne : h1 ≠ 2 * (s1 + 1) - 1 := by
      rw [he]
      have hs1 : s1 = (len - 2) / 2 := hcond.2
      have : (len - 2) / 2 ≤ len - 2 := Nat.div_le_self _ _
      omega
    constructor
    · have hp1 := pushHeapAux_perm
        (c1.set h1 (c1.getD (2 * (s1 + 1) - 1) dNode)) (2 * (s1 + 1) - 1) 0 v
        (by simpa using hidx)
      have hsw := set_set_swap_perm dNode c1 h1 (2 * (s1 + 1) - 1) v
        (by rw [hlen]; omega) hidx hne
      exact hp1.trans (hsw.trans (hperm v))
    · intro j hj
      rw [pushHeapAux_getD_high _ _ _ _ _ (by omega),
        getD_set_ne _ _ _ _ _ (by omega)]
      exact htail j hj
  · constructor
    · exact (pushHeapAux_perm c1 h1 0 v (by rw [hlen]; omega)).trans (hperm v)
    · intro j hj
      rw [pushHeapAux_getD_high _ _ _ _ _ (by omega)]
      exact htail j hj

theorem pqPop_perm (c : List HNode) (h : 1 ≤ c.length) :
    List.Perm c (c.getD 0 dNode :: pqPop c) := by
  by_cases hle : c.length ≤ 1
  · have hlen1 : c.length = 1 := by omega
    obtain ⟨a, rfl⟩ := List.length_eq_one.mp hlen1
    simp [pqPop]
  · push_neg at hle
    obtain ⟨a0, rest, rfl⟩ : ∃ a0 rest, c = a0 :: rest := by
      cases c with
      | nil => simp at h
      | cons x xs => exact ⟨x, xs, rfl⟩
    have hrest : rest ≠ [] := by
      intro hr
      subst hr
      simp at hle
    obtain ⟨mid, b0, hmid⟩ : ∃ mid b0, rest = mid ++ [b0] :=
      ⟨rest.dropLast, rest.getLast hrest, (List.dropLast_append_getLast hrest).symm⟩
    subst hmid
    have hn : (a0 :: (mid ++ [b0])).length = mid.length + 2 := by simp
    have hg0 : (a0 :: (mid ++ [b0])).getD 0 dNode = a0 := rfl
    have hgl : (a0 :: (mid ++ [b0])).getD (mid.length + 1) dNode = b0 := by
      rw [List.getD_cons_succ, getD_append_length]
    have hset : (a0 :: (mid ++ [b0])).set (mid.length + 1) a0
        = a0 :: (mid ++ [a0]) := by
      rw [List.set_cons_succ, set_append_length]
    have hpop : pqPop (a0 :: (mid ++ [b0]))
        = (adjustHeap (a0 :: (mid ++ [a0])) (mid.length + 1) b0).dropLast := by
      simp only [pqPop]
      rw [if_neg (by simp)]
      rw [hn]
      have e1 : mid.length + 2 - 1 = mid.length + 1 := by omega
      rw [e1, hg0, hgl, hset]
    have hspec := adjustHeap_spec (a0 :: (mid ++ [a0])) (mid.length + 1) b0
      (by omega) (by simp)
    obtain ⟨hperm, htail⟩ := hspec
    have hAlen : (adjustHeap (a0 :: (mid ++ [a0])) (mid.length + 1) b0).length
        = mid.length + 2 := by
      rw [adjustHeap_length]; simp
    have hAne : adjustHeap (a0 :: (mid ++ [a0])) (mid.length + 1) b0 ≠ [] := by
      intro hnil
      rw [hnil] at hAlen
      simp at hAlen
    have hAlast : (adjustHeap (a0 :: (mid ++ [a0])) (mid.length + 1) b0).getD
        (mid.length + 1) dNode = a0 := by
      rw [htail (mid.length + 1) (Nat.le_refl _), List.getD_cons_succ,
        getD_append_length]
    have hAsplit : (adjustHeap (a0 :: (mid ++ [a0])) (mid.length + 1) b0).dropLast
        ++ [a0]
        = adjustHeap (a0 :: (mid ++ [a0])) (mid.length + 1) b0 := by
      have h3 := dropLast_append_getD dNode
        (adjustHeap (a0 :: (mid ++ [a0])) (mid.length + 1) b0) hAne
      rw [hAlen] at h3
      have e2 : mid.length + 2 - 1 = mid.length + 1 := by omega
      rw [e2, hAlast] at h3
      exact h3
    have hset0 : (a0 :: (mid ++ [a0])).set 0 b0 = (b0 :: mid) ++ [a0] := by simp
    have hperm' : List.Perm
        ((adjustHeap (a0 :: (mid ++ [a0])) (mid.length + 1) b0).dropLast ++ [a0])
        ((b0 :: mid) ++ [a0]) := by
      rw [hAsplit, ← hset0]
      exact hperm
    have hdrop : List.Perm
        (adjustHeap (a0 :: (mid ++ [a0])) (mid.length + 1) b0).dropLast
        (b0 :: mid) := (List.perm_append_right_iff [a0]).mp hperm'
    rw [hpop, hg0]
    refine List.Perm.cons a0 ?_
    exact (List.perm_append_singleton b0 mid).trans hdrop.symm

theorem buildStep_perm (q : List HNode) :
    List.Perm (buildStep q)
      (HNode.mk ⟨32, (pqTop q).data.freq + (pqTop (pqPop q)).data.freq, []⟩
        (pqTop q) (pqTop (pqPop q)) .INTERNAL :: pqPop (pqPop q)) :=
  pqPush_perm _ _

theorem pqTop_pqPop_perm (q : List HNode) (h : 1 ≤ q.length) :
    List.Perm q (pqTop q :: pqPop q) := pqPop_perm q h

/-- `huff_tree::__encode_node` on a non-root node `p` reached from its parent
with edge bit `b` and parent code `pre`: set `p->data.code = pre + b`, stop at
a leaf, otherwise recurse into both children with the new code as prefix. -/
def encodeNodeChild : HNode → List Bool → Bool → HNode
  | .null, _, _ => .null
  | .mk d l r ty, pre, b =>
    if ty = .LEAF then .mk ⟨d.val, d.freq, pre ++ [b]⟩ l r ty
    else .mk ⟨d.val, d.freq, pre ++ [b]⟩ (encodeNodeChild l (pre ++ [b]) false)
        (encodeNodeChild r (pre ++ [b]) true) ty

/-- `huff_tree::_encode_node`: `__encode_node(_root, _root->data.code, 0)`.
The root itself is skipped (its code is left unchanged) and its children are
visited with the root's code as prefix. -/
def encodeNodeRoot (t : HNode) : HNode :=
  match t with
  | .null => .null
  | .mk d l r ty =>
    .mk d (encodeNodeChild l d.code false) (encodeNodeChild r d.code true) ty

/-- The leaf of the tree holding symbol `v` (the value-level counterpart of
the `_map[v]` node pointer): depth-first search, leaves report only
themselves. -/
def findLeaf : HNode → Nat → Option HuffCode
  | .null, _ => none
  | .mk d l r ty, v =>
    if ty = .LEAF then (if d.val = v then some d else none)
    else (findLeaf l v).orElse (fun _ => findLeaf r v)

/-- `_map[v]->data.code` after `_encode_node` has run: the code stored at the
leaf holding `v` (the empty string if no such leaf exists — the C++ pointer
dereference cannot fail for symbols of the input). -/
def lookupCode (t : HNode) (v : Nat) : List Bool :=
  ((findLeaf t v).map HuffCode.code).getD []

/-- `huff_tree::_build` followed by the body of `huff_tree::encode`:
count frequencies, fill the priority queue, run the combining loop
(`assert(q.size() == 1)` failing is `none`), assign codes, and return
(root, `_size`, `_list`, the 0/1 sequence `dst`). `_list` holds one
`huff_code` per distinct symbol in ascending symbol order. -/
def huffEncode (src : List Nat) :
    Option (HNode × Nat × List HuffCode × List Bool) :=
  match buildLoop (initQueue (mapsGenerator src)) with
  | [root0] =>
    some (encodeNodeRoot root0, (initQueue (mapsGenerator src)).length,
      (mapsGenerator src).map (fun kv =>
        { val := kv.1, freq := kv.2,
          code := lookupCode (encodeNodeRoot root0) kv.1 : HuffCode }),
      src.flatMap (fun ch => lookupCode (encodeNodeRoot root0) ch))
  | _ => none

/-- The encoder's tree root (`dNode` when the build fails). -/
def encRoot (src : List Nat) : HNode :=
  match huffEncode src with
  | some r => r.1
  | none => dNode

/-- The encoder's `_list` (empty when the build fails). -/
def encList (src : List Nat) : List HuffCode :=
  match huffEncode src with
  | some r => r.2.2.1
  | none => []

/-- The encoder's 0/1 sequence `dst` (empty when the build fails). -/
def encDst (src : List Nat) : List Bool :=
  match huffEncode src with
  | some r => r.2.2.2
  | none => []

/-- `huff_tree::decode`: walk the tree bit by bit from the root; `'0'` steps
left, anything else steps right; on reaching a `LEAF` emit its symbol and
reset to the root. A null-pointer dereference (`p->type` with `p == nullptr`)
is `none`. -/
def hdecodeGo (root p : HNode) (bits : List Bool) (acc : List Nat) :
    Option (List Nat) :=
  match bits with
  | [] => some acc.reverse
  | b :: rest =>
    match (if b then p.right else p.left) with
    | .null => none
    | .mk d2 l2 r2 ty2 =>
      if ty2 = .LEAF then hdecodeGo root root rest (d2.val :: acc)
      else hdecodeGo root (.mk d2 l2 r2 ty2) rest acc

def hdecode (root : HNode) (bits : List Bool) : Option (List Nat) :=
  hdecodeGo root root bits []

/-- The inner `for` of `huff_tree::build`, one table entry: walk the code from
`p`, creating a child (`LEAF` exactly at the last bit) when the slot is null,
and unconditionally overwriting the child's data with
`val = item.val, freq = 1, code = p->data.code + bit`. -/
def insertItem (p : HNode) (v : Nat) : List Bool → HNode
  | [] => p
  | b :: rest =>
    match p with
    | .null => .null
    | .mk d l r ty =>
      let cty : HType := if rest = [] then .LEAF else .INTERNAL
      let child0 : HNode :=
        match (if b then r else l) with
        | .null => .mk ⟨32, 1, []⟩ .null .null cty
        | .mk cd cl cr cty0 => .mk cd cl cr cty0
      let child1 : HNode :=
        match child0 with
        | .null => .null
        | .mk _ cl cr cty0 => .mk ⟨v, 1, d.code ++ [b]⟩ cl cr cty0
      let child2 := insertItem child1 v rest
      if b then .mk d l child2 ty else .mk d child2 r ty

/-- `huff_tree::build`: rebuild the decode tree from `_list`, starting from a
fresh default root (`new huff_node()`, type `LEAF`, empty code). -/
def hrebuild (list : List HuffCode) : HNode :=
  list.foldl (fun root item => insertItem root item.val item.code)
    (.mk ⟨32, 1, []⟩ .null .null .LEAF)

/-! ## The container format (`huff_head`, `huff_entry`, the packed body).
All multi-byte fields are written by `memcpy` of a packed struct on a
little-endian machine. -/

def HUFF_MAGIC : Nat := 0x4655482e

def u16le (n : Nat) : List Nat := [n % 256, n / 256 % 256]

def u32le (n : Nat) : List Nat :=
  [n % 256, n / 256 % 256, n / 65536 % 256, n / 16777216 % 256]

/-- `std::bitset<N>(str).to_ulong()` for a `'0'`/`'1'` string: the first
(at most N) characters read as a binary number, most significant first;
characters beyond N are dropped. -/
def bitsToNat (bs : List Bool) : Nat :=
  bs.foldl (fun a b => 2 * a + (if b then 1 else 0)) 0

/-- `huffman_decoder::convert_uint16_to_01_str`: bits `len-1 .. 0` of `val`,
most significant first. -/
def natToBits (val len : Nat) : List Bool :=
  (List.range len).reverse.map (fun i => val.testBit i)

/-- `huffman_encoder::write_head`: magic, `_size` and `last_length` as
`uint16_t`. -/
def headBytes (size last : Nat) : List Nat :=
  u32le HUFF_MAGIC ++ u16le size ++ u16le last

/-- `huffman_encoder::write_entry`, one entry: `val` and the code length as
`uint8_t`, then `std::bitset<16>(code).to_ulong()` as `uint16_t` (a code
longer than 16 bits is silently truncated to its first 16 characters). -/
def entryBytes (e : HuffCode) : List Nat :=
  [e.val % 256, e.code.length % 256] ++ u16le (bitsToNat (e.code.take 16))

/-- `huffman_encoder::write_contents`: `dst.size() / 8` full bytes, then
always one more byte holding the remaining bits padded with `'0'` characters
to 8 (a byte `0` when `dst.size()` is a multiple of 8). -/
def writeContents (dst : List Bool) : List Nat :=
  let times := dst.length / 8
  (List.range times).map (fun k => bitsToNat ((dst.drop (8 * k)).take 8))
    ++ [bitsToNat ((dst.drop (8 * times))
          ++ List.replicate (8 - (dst.length - 8 * times)) false)]

/-- `huffman_encoder::write` (after `read` filled `src`): build and encode,
set `last_length = dst.size() % 8`, then header, table and contents. The
failing `assert` inside `_build` on an empty queue is `none`. -/
def encoderWrite (src : List Nat) : Option (List Nat) :=
  match huffEncode src with
  | none => none
  | some (_, size, list, dst) =>
    some (headBytes size (dst.length % 8) ++ list.flatMap entryBytes
      ++ writeContents dst)

/-- `huffman_decoder::read_head`: read 8 bytes, compare the magic.
On a mismatch it returns `-1` *without* assigning `entry_size` and
`last_length` (they stay uninitialised, hence the `Option`). -/
def decReadHead (buf : List Nat) : Int × Option (Nat × Nat) :=
  let magic := buf.getD 0 0 + 256 * buf.getD 1 0 + 65536 * buf.getD 2 0
    + 16777216 * buf.getD 3 0
  if magic = HUFF_MAGIC then
    (0, some (buf.getD 4 0 + 256 * buf.getD 5 0,
              buf.getD 6 0 + 256 * buf.getD 7 0))
  else (-1, none)

/-- `huffman_decoder::read_entry`: `entry_size` fixed 4-byte entries starting
at offset 8; each becomes a `huff_code` (default `freq = 1`) whose code is
`convert_uint16_to_01_str(entry.code, entry.length)`. -/
def decReadEntry (buf : List Nat) (es : Nat) : List HuffCode :=
  (List.range es).map (fun i =>
    let off := 8 + 4 * i
    ⟨buf.getD off 0, 1,
     natToBits (buf.getD (off + 2) 0 + 256 * buf.getD (off + 3) 0)
       (buf.getD (off + 1) 0)⟩)

/-- `huffman_decoder::read_contents`: `cont_bytes = file_size - 8 - 4 *
entry_size` body bytes; all but the last contribute 8 bits (most significant
first); of the last byte, bits `7` down to `end+1` are read, where
`end = -1` when `last_length == 0` (the whole byte) and `7 - last_length`
otherwise. An empty body (never produced by the encoder) reads out of
bounds in C++ and is modelled as no bits. -/
def decReadContents (buf : List Nat) (es ll : Nat) : List Bool :=
  let contBytes := buf.length - 8 - 4 * es
  let body := buf.drop (8 + 4 * es)
  match body with
  | [] => []
  | _ =>
    (body.take (contBytes - 1)).flatMap (fun x => natToBits x 8)
      ++ (natToBits (body.getD (contBytes - 1) 0) 8).take
          (if ll = 0 then 8 else ll)

/-- `huffman_decoder::read` followed by `huffman_decoder::write`:
`read_head()` is called and its result DISCARDED (the `-1` of a magic
mismatch is ignored, and `entry_size` / `last_length` are then read
uninitialised — `gE`, `gL` stand for whatever the members happen to hold);
then `read_entry`, `t.build()`, `read_contents`, and `t.decode` producing the
output bytes. -/
def decoderRun (gE gL : Nat) (buf : List Nat) : Option (List Nat) :=
  let st := (decReadHead buf).2.getD (gE, gL)
  let list := decReadEntry buf st.1
  let tree := hrebuild list
  let bits := decReadContents buf st.1 st.2
  hdecode tree bits

/-! ## Structural facts about encoder-built trees: the combining loop builds
full binary trees with pairwise-distinct leaf symbols, and `__encode_node`
assigns exactly the root-to-leaf paths as codes. -/

/-- A well-formed node of an encoder-built tree: a `LEAF` with two null
children, or an `INTERNAL` node with two well-formed children. -/
inductive Proper : HNode → Prop where
  | leaf (d : HuffCode) : Proper (.mk d .null .null .LEAF)
  | node (d : HuffCode) (l r : HNode) : Proper l → Proper r →
      Proper (.mk d l r .INTERNAL)

/-- The symbols stored at the leaves of a tree, left to right. -/
def leafVals : HNode → List Nat
  | .null => []
  | .mk d _ _ .LEAF => [d.val]
  | .mk _ l r .INTERNAL => leafVals l ++ leafVals r

/-- The `(symbol, root-to-leaf path)` pairs of a tree, each path prefixed
with `pre` (left edge `false`, right edge `true`). -/
def codePaths : HNode → List Bool → List (Nat × List Bool)
  | .null, _ => []
  | .mk d _ _ .LEAF, pre => [(d.val, pre)]
  | .mk _ l r .INTERNAL, pre =>
    codePaths l (pre ++ [false]) ++ codePaths r (pre ++ [true])

/-- The `(symbol, stored code)` pairs at the leaves of a tree. -/
def leafCodes : HNode → List (Nat × List Bool)
  | .null => []
  | .mk d _ _ .LEAF => [(d.val, d.code)]
  | .mk _ l r .INTERNAL => leafCodes l ++ leafCodes r

/-- `a` is a (possibly improper) prefix of `b`. -/
def isPre (a b : List Bool) : Prop := ∃ s, a ++ s = b

/-- `a` is a strict (proper) prefix of `b`. -/
def strictPre (a b : List Bool) : Prop := ∃ t, t ≠ [] ∧ a ++ t = b

theorem strictPre_isPre {a b : List Bool} (h : strictPre a b) : isPre a b := by
  obtain ⟨t, _, ht⟩ := h
  exact ⟨t, ht⟩

theorem codePaths_map_fst : ∀ (t : HNode) (pre : List Bool),
    (codePaths t pre).map Prod.fst = leafVals t
  | .null, _ => rfl
  | .mk _ _ _ .LEAF, _ => rfl
  | .mk _ l r .INTERNAL, pre => by
    simp [codePaths, leafVals, codePaths_map_fst l _, codePaths_map_fst r _]

theorem codePaths_shift : ∀ (t : HNode) (pre : List Bool),
    codePaths t pre = (codePaths t []).map (fun p => (p.1, pre ++ p.2))
  | .null, _ => rfl
  | .mk _ _ _ .LEAF, pre => by simp [codePaths]
  | .mk _ l r .INTERNAL, pre => by
    show codePaths l (pre ++ [false]) ++ codePaths r (pre ++ [true]) = _
    rw [codePaths_shift l (pre ++ [false]), codePaths_shift r (pre ++ [true])]
    show _ = (codePaths l ([] ++ [false]) ++ codePaths r ([] ++ [true])).map _
    rw [List.nil_append, List.nil_append, codePaths_shift l [false],
      codePaths_shift r [true]]
    simp [List.map_append, List.map_map, Function.comp_def, List.append_assoc]

theorem mem_codePaths_shift {t : HNode} {pre : List Bool} {v : Nat}
    {c : List Bool} (h : (v, c) ∈ codePaths t pre) :
    ∃ s, c = pre ++ s ∧ (v, s) ∈ codePaths t [] := by
  rw [codePaths_shift] at h
  obtain ⟨p, hp, he⟩ := List.mem_map.mp h
  have h1 := congrArg Prod.fst he
  have h2 := congrArg Prod.snd he
  simp only at h1 h2
  refine ⟨p.2, h2.symm, ?_⟩
  rw [← h1]
  simpa using hp

theorem not_isPre_diverge (pre s1 s2 : List Bool) (x y : Bool) (hxy : x ≠ y) :
    ¬ isPre (pre ++ x :: s1) (pre ++ y :: s2) := by
  rintro ⟨t, ht⟩
  rw [List.append_assoc] at ht
  have h2 := List.append_cancel_left ht
  rw [List.cons_append] at h2
  exact hxy (by injection h2)

theorem codePaths_pairwise : ∀ (t : HNode) (pre : List Bool),
    List.Pairwise (fun a b : Nat × List Bool =>
      ¬ isPre a.2 b.2 ∧ ¬ isPre b.2 a.2) (codePaths t pre)
  | .null, _ => List.Pairwise.nil
  | .mk _ _ _ .LEAF, _ => List.pairwise_singleton _ _
  | .mk _ l r .INTERNAL, pre => by
    rw [codePaths, List.pairwise_append]
    refine ⟨codePaths_pairwise l _, codePaths_pairwise r _, ?_⟩
    intro a ha b hb
    obtain ⟨s1, hs1, _⟩ := mem_codePaths_shift (show (a.1, a.2) ∈ _ from ha)
    obtain ⟨s2, hs2, _⟩ := mem_codePaths_shift (show (b.1, b.2) ∈ _ from hb)
    rw [hs1, hs2, List.append_assoc, List.append_assoc]
    exact ⟨not_isPre_diverge pre s1 s2 false true (by decide),
      not_isPre_diverge pre s2 s1 true false (by decide)⟩

/-- `__encode_node` on a non-root proper subtree: the structure, leaf symbols
and root-to-leaf paths are unchanged, and the stored codes become exactly the
paths extended from `pre ++ [b]`. -/
theorem encodeNodeChild_proper {t : HNode} (h : Proper t) (pre : List Bool)
    (b : Bool) : Proper (encodeNodeChild t pre b) := by
  induction h generalizing pre b with
  | leaf d => exact Proper.leaf _
  | node d l r _ _ ihl ihr =>
    simp only [encodeNodeChild]
    rw [if_neg (by decide)]
    exact Proper.node _ _ _ (ihl _ _) (ihr _ _)

theorem encodeNodeChild_leafVals {t : HNode} (h : Proper t) (pre : List Bool)
    (b : Bool) : leafVals (encodeNodeChild t pre b) = leafVals t := by
  induction h generalizing pre b with
  | leaf d => rfl
  | node d l r _ _ ihl ihr =>
    simp only [encodeNodeChild]
    rw [if_neg (by decide)]
    simp [leafVals, ihl, ihr]

theorem encodeNodeChild_codePaths {t : HNode} (h : Proper t) (pre : List Bool)
    (b : Bool) (q : List Bool) :
    codePaths (encodeNodeChild t pre b) q = codePaths t q := by
  induction h generalizing pre b q with
  | leaf d => rfl
  | node d l r _ _ ihl ihr =>
    simp only [encodeNodeChild]
    rw [if_neg (by decide)]
    simp [codePaths, ihl, ihr]

theorem encodeNodeChild_leafCodes {t : HNode} (h : Proper t) (pre : List Bool)
    (b : Bool) :
    leafCodes (encodeNodeChild t pre b) = codePaths t (pre ++ [b]) := by
  induction h generalizing pre b with
  | leaf d => rfl
  | node d l r _ _ ihl ihr =>
    simp only [encodeNodeChild]
    rw [if_neg (by decide)]
    simp [leafCodes, codePaths, ihl, ihr]

theorem encodeNodeRoot_proper {t : HNode} (h : Proper t) :
    Proper (encodeNodeRoot t) := by
  cases h with
  | leaf d => exact Proper.leaf _
  | node d l r hl hr =>
    exact Proper.node _ _ _ (encodeNodeChild_proper hl _ _)
      (encodeNodeChild_proper hr _ _)

theorem encodeNodeRoot_type (t : HNode) :
    (encodeNodeRoot t).type = t.type := by
  cases t <;> rfl

theorem encodeNodeRoot_leafVals {t : HNode} (h : Proper t) :
    leafVals (encodeNodeRoot t) = leafVals t := by
  cases h with
  | leaf d => rfl
  | node d l r hl hr =>
    simp [encodeNodeRoot, leafVals, encodeNodeChild_leafVals hl,
      encodeNodeChild_leafVals hr]

theorem encodeNodeRoot_codePaths {t : HNode} (h : Proper t) (q : List Bool) :
    codePaths (encodeNodeRoot t) q = codePaths t q := by
  cases h with
  | leaf d => rfl
  | node d l r hl hr =>
    simp [encodeNodeRoot, codePaths, encodeNodeChild_codePaths hl,
      encodeNodeChild_codePaths hr]

theorem encodeNodeRoot_leafCodes {t : HNode} (h : Proper t)
    (hc : t.data.code = []) :
    leafCodes (encodeNodeRoot t) = codePaths t [] := by
  cases h with
  | leaf d =>
    simp only [HNode.data] at hc
    simp [encodeNodeRoot, leafCodes, codePaths, encodeNodeChild, hc]
  | node d l r hl hr =>
    simp only [HNode.data] at hc
    simp [encodeNodeRoot, leafCodes, codePaths, hc,
      encodeNodeChild_leafCodes hl, encodeNodeChild_leafCodes hr]

theorem findLeaf_of_not_mem : ∀ (t : HNode) (v : Nat),
    v ∉ leafVals t → findLeaf t v = none
  | .null, _, _ => rfl
  | .mk d l r .LEAF, v, h => by
    have : d.val ≠ v := by
      intro he
      exact h (by simp [leafVals, he])
    simp [findLeaf, this]
  | .mk d l r .INTERNAL, v, h => by
    rw [leafVals] at h
    simp only [List.mem_append] at h
    push_neg at h
    simp [findLeaf, findLeaf_of_not_mem l v h.1, findLeaf_of_not_mem r v h.2,
      Option.orElse]

theorem findLeaf_mem : ∀ (t : HNode) (v : Nat), (leafVals t).Nodup →
    v ∈ leafVals t →
    ∃ dc, findLeaf t v = some dc ∧ dc.val = v ∧ (v, dc.code) ∈ leafCodes t
  | .mk d l r .LEAF, v, _, hm => by
    obtain rfl : v = d.val := by simpa [leafVals] using hm
    exact ⟨d, by simp [findLeaf], rfl, by simp [leafCodes]⟩
  | .mk d l r .INTERNAL, v, hnd, hm => by
    rw [leafVals] at hnd hm
    have hndl : (leafVals l).Nodup := hnd.of_append_left
    have hndr : (leafVals r).Nodup := hnd.of_append_right
    rcases List.mem_append.mp hm with hml | hmr
    · obtain ⟨dc, hfind, hval, hmem⟩ := findLeaf_mem l v hndl hml
      exact ⟨dc, by simp [findLeaf, hfind, Option.orElse], hval,
        by simp [leafCodes, hmem]⟩
    · have hnl : v ∉ leafVals l := fun hml =>
        (List.disjoint_of_nodup_append hnd) hml hmr
      obtain ⟨dc, hfind, hval, hmem⟩ := findLeaf_mem r v hndr hmr
      exact ⟨dc, by simp [findLeaf, findLeaf_of_not_mem l v hnl, hfind,
        Option.orElse], hval, by simp [leafCodes, hmem]⟩

/-- The invariant carried by the priority queue during `_build`: every tree
in it is proper and its root's code is still empty. -/
def QOK (q : List HNode) : Prop := ∀ t ∈ q, Proper t ∧ t.data.code = []

theorem QOK_perm {q q' : List HNode} (hp : List.Perm q q') (h : QOK q) :
    QOK q' := fun t ht => h t (hp.symm.subset ht)

theorem pqTop_mem (q : List HNode) (h : 1 ≤ q.length) : pqTop q ∈ q :=
  (pqTop_pqPop_perm q h).symm.subset (List.mem_cons_self _ _)

theorem pqPop_subset {q : List HNode} (h1 : 1 ≤ q.length) {t : HNode}
    (ht : t ∈ pqPop q) : t ∈ q :=
  (pqPop_perm q h1).symm.subset (List.mem_cons_of_mem _ ht)

theorem pqPop_QOK {q : List HNode} (h1 : 1 ≤ q.length) (h : QOK q) :
    QOK (pqPop q) := fun t ht => h t (pqPop_subset h1 ht)

theorem buildStep_QOK {q : List HNode} (h2 : 2 ≤ q.length) (h : QOK q) :
    QOK (buildStep q) := by
  have hq1 : QOK (pqPop q) := pqPop_QOK (by omega) h
  have hl := h _ (pqTop_mem q (by omega))
  have hr := hq1 _ (pqTop_mem (pqPop q) (by rw [pqPop_length]; omega))
  have hq2 : QOK (pqPop (pqPop q)) :=
    pqPop_QOK (by rw [pqPop_length]; omega) hq1
  refine QOK_perm (buildStep_perm q).symm ?_
  intro t ht
  rcases List.mem_cons.mp ht with rfl | ht
  · exact ⟨Proper.node _ _ _ hl.1 hr.1, rfl⟩
  · exact hq2 t ht

theorem buildStep_leafVals {q : List HNode} (h2 : 2 ≤ q.length) :
    List.Perm ((buildStep q).flatMap leafVals) (q.flatMap leafVals) := by
  have hp1 := (pqTop_pqPop_perm q (by omega)).flatMap_right leafVals
  have hp2 := (pqTop_pqPop_perm (pqPop q)
    (by rw [pqPop_length]; omega)).flatMap_right leafVals
  have hb := (buildStep_perm q).flatMap_right leafVals
  refine hb.trans ?_
  rw [List.flatMap_cons] at hp1 hp2 ⊢
  have e : leafVals (HNode.mk
      ⟨32, (pqTop q).data.freq + (pqTop (pqPop q)).data.freq, []⟩
      (pqTop q) (pqTop (pqPop q)) .INTERNAL)
      = leafVals (pqTop q) ++ leafVals (pqTop (pqPop q)) := rfl
  rw [e, List.append_assoc]
  refine List.Perm.trans ?_ hp1.symm
  exact List.Perm.append_left _ hp2.symm

theorem buildLoopF_QOK : ∀ (fuel : Nat) (q : List HNode), QOK q →
    QOK (buildLoopF fuel q)
  | 0, q, h => h
  | fuel + 1, q, h => by
    simp only [buildLoopF]
    split
    · next h2 => exact buildLoopF_QOK fuel _ (buildStep_QOK h2 h)
    · exact h

theorem buildLoopF_leafVals : ∀ (fuel : Nat) (q : List HNode),
    List.Perm ((buildLoopF fuel q).flatMap leafVals) (q.flatMap leafVals)
  | 0, q => List.Perm.refl _
  | fuel + 1, q => by
    simp only [buildLoopF]
    split
    · next h2 =>
      exact (buildLoopF_leafVals fuel _).trans (buildStep_leafVals h2)
    · exact List.Perm.refl _

theorem foldl_pqPush_perm : ∀ (ms : List (Nat × Nat)) (q : List HNode),
    List.Perm
      (List.foldl (fun q kv =>
        pqPush q (HNode.mk ⟨kv.1, kv.2, []⟩ .null .null .LEAF)) q ms)
      (q ++ ms.map (fun kv => HNode.mk ⟨kv.1, kv.2, []⟩ .null .null .LEAF))
  | [], q => by simp
  | kv :: rest, q => by
    rw [List.foldl_cons]
    refine (foldl_pqPush_perm rest _).trans ?_
    have h1 := (pqPush_perm q (HNode.mk ⟨kv.1, kv.2, []⟩ .null .null .LEAF)).append_right
      (rest.map (fun kv => HNode.mk ⟨kv.1, kv.2, []⟩ .null .null .LEAF))
    refine h1.trans ?_
    rw [List.map_cons, List.cons_append]
    exact List.perm_middle.symm

theorem initQueue_perm (m : List (Nat × Nat)) :
    List.Perm (initQueue m)
      (m.map (fun kv => HNode.mk ⟨kv.1, kv.2, []⟩ .null .null .LEAF)) := by
  have h := foldl_pqPush_perm m []
  simpa [initQueue] using h

theorem initQueue_QOK (m : List (Nat × Nat)) : QOK (initQueue m) := by
  refine QOK_perm (initQueue_perm m).symm ?_
  intro t ht
  obtain ⟨kv, _, rfl⟩ := List.mem_map.mp ht
  exact ⟨Proper.leaf _, rfl⟩

theorem flatMap_leafVals_map : ∀ (m : List (Nat × Nat)),
    (m.map (fun kv => HNode.mk ⟨kv.1, kv.2, []⟩ .null .null .LEAF)).flatMap
      leafVals = m.map Prod.fst
  | [] => rfl
  | kv :: rest => by
    simp [leafVals, flatMap_leafVals_map rest]

theorem initQueue_leafVals (m : List (Nat × Nat)) :
    List.Perm ((initQueue m).flatMap leafVals) (m.map Prod.fst) := by
  have h := (initQueue_perm m).flatMap_right leafVals
  rw [flatMap_leafVals_map] at h
  exact h

theorem foldl_pqPush_length : ∀ (ms : List (Nat × Nat)) (q : List HNode),
    (List.foldl (fun q kv =>
      pqPush q (HNode.mk ⟨kv.1, kv.2, []⟩ .null .null .LEAF)) q ms).length
      = q.length + ms.length
  | [], q => by simp
  | kv :: rest, q => by
    rw [List.foldl_cons, foldl_pqPush_length rest _, pqPush_length]
    simp [Nat.add_assoc, Nat.add_comm 1 _]

theorem initQueue_length (m : List (Nat × Nat)) :
    (initQueue m).length = m.length := by
  have h := foldl_pqPush_length m []
  simpa [initQueue] using h

theorem mapInsert_mem : ∀ (m : List (Nat × Nat)) (k : Nat) (x : Nat × Nat),
    x ∈ mapInsert m k → x.1 = k ∨ x ∈ m
  | [], k, x, h => by
    left
    obtain rfl : x = (k, 1) := by simpa [mapInsert] using h
    rfl
  | (k', f) :: rest, k, x, h => by
    rw [mapInsert] at h
    split at h
    · rcases List.mem_cons.mp h with rfl | h2
      · left; rfl
      · right; exact h2
    · split at h
      · next heq =>
        rcases List.mem_cons.mp h with rfl | h2
        · left; simpa using heq.symm
        · right; exact List.mem_cons_of_mem _ h2
      · rcases List.mem_cons.mp h with rfl | h2
        · right; exact List.mem_cons_self _ _
        · rcases mapInsert_mem rest k x h2 with h3 | h3
          · left; exact h3
          · right; exact List.mem_cons_of_mem _ h3

theorem mapInsert_sorted : ∀ (m : List (Nat × Nat)) (k : Nat),
    List.Pairwise (fun a b : Nat × Nat => a.1 < b.1) m →
    List.Pairwise (fun a b : Nat × Nat => a.1 < b.1) (mapInsert m k)
  | [], k, _ => List.pairwise_singleton _ _
  | (k', f) :: rest, k, hs => by
    obtain ⟨hhead, hrest⟩ := List.pairwise_cons.mp hs
    rw [mapInsert]
    split
    · next hlt =>
      refine List.pairwise_cons.mpr ⟨?_, hs⟩
      intro x hx
      rcases List.mem_cons.mp hx with rfl | hx
      · exact hlt
      · exact Nat.lt_trans hlt (hhead x hx)
    · split
      · next heq =>
        exact List.pairwise_cons.mpr ⟨fun x hx => hhead x hx, hrest⟩
      · next hne1 hne2 =>
        have hgt : k' < k := by
          rcases Nat.lt_trichotomy k k' with h | h | h
          · exact absurd h hne1
          · exact absurd h hne2
          · exact h
        refine List.pairwise_cons.mpr ⟨?_, mapInsert_sorted rest k hrest⟩
        intro x hx
        rcases mapInsert_mem rest k x hx with h3 | h3
        · omega
        · exact hhead x h3

theorem foldl_mapInsert_sorted : ∀ (src : List Nat) (m : List (Nat × Nat)),
    List.Pairwise (fun a b : Nat × Nat => a.1 < b.1) m →
    List.Pairwise (fun a b : Nat × Nat => a.1 < b.1)
      (List.foldl mapInsert m src)
  | [], m, h => h
  | ch :: rest, m, h => by
    rw [List.foldl_cons]
    exact foldl_mapInsert_sorted rest _ (mapInsert_sorted m ch h)

theorem mapsGenerator_sorted (src : List Nat) :
    List.Pairwise (fun a b : Nat × Nat => a.1 < b.1) (mapsGenerator src) :=
  foldl_mapInsert_sorted src [] List.Pairwise.nil

theorem mapsGenerator_keys_nodup (src : List Nat) :
    ((mapsGenerator src).map Prod.fst).Nodup := by
  rw [List.Nodup, List.pairwise_map]
  exact (mapsGenerator_sorted src).imp (fun h => Nat.ne_of_lt h)

theorem buildLoopF_singleton : ∀ (fuel : Nat) (x : HNode),
    buildLoopF fuel [x] = [x]
  | 0, x => rfl
  | fuel + 1, x => by simp [buildLoopF]

theorem buildLoopF_length_one : ∀ (fuel : Nat) (q : List HNode),
    1 ≤ q.length → q.length ≤ fuel + 1 → (buildLoopF fuel q).length = 1
  | 0, q, h1, h2 => by
    simp only [buildLoopF]
    omega
  | fuel + 1, q, h1, h2 => by
    simp only [buildLoopF]
    split
    · next hc =>
      exact buildLoopF_length_one fuel _ (by rw [buildStep_length q hc]; omega)
        (by rw [buildStep_length q hc]; omega)
    · next hc => omega

theorem buildLoopF_internal : ∀ (fuel : Nat) (q : List HNode),
    2 ≤ q.length → q.length ≤ fuel + 1 →
    ∃ dd l r, buildLoopF fuel q = [HNode.mk dd l r .INTERNAL]
  | 0, q, h2, hf => by omega
  | fuel + 1, q, h2, hf => by
    simp only [buildLoopF]
    rw [if_pos h2]
    by_cases hq : q.length = 2
    · have hq2 : pqPop (pqPop q) = [] :=
        List.length_eq_zero.mp (by rw [pqPop_length, pqPop_length]; omega)
      have hstep : buildStep q
          = [HNode.mk ⟨32, (pqTop q).data.freq + (pqTop (pqPop q)).data.freq, []⟩
              (pqTop q) (pqTop (pqPop q)) .INTERNAL] := by
        show pqPush (pqPop (pqPop q)) _ = _
        rw [hq2]
        rfl
      rw [hstep, buildLoopF_singleton]
      exact ⟨_, _, _, rfl⟩
    · exact buildLoopF_internal fuel (buildStep q)
        (by rw [buildStep_length q h2]; omega)
        (by rw [buildStep_length q h2]; omega)

theorem buildLoop_length_one (q : List HNode) (h : 1 ≤ q.length) :
    (buildLoop q).length = 1 :=
  buildLoopF_length_one q.length q h (by omega)

theorem buildLoop_internal (q : List HNode) (h : 2 ≤ q.length) :
    ∃ dd l r, buildLoop q = [HNode.mk dd l r .INTERNAL] :=
  buildLoopF_internal q.length q h (by omega)

theorem encoder_root_spec (src : List Nat) (root0 : HNode)
    (hb : buildLoop (initQueue (mapsGenerator src)) = [root0]) :
    Proper root0 ∧ root0.data.code = [] ∧
    List.Perm (leafVals root0) ((mapsGenerator src).map Prod.fst) ∧
    (leafVals root0).Nodup := by
  have hqok : QOK (buildLoop (initQueue (mapsGenerator src))) :=
    buildLoopF_QOK _ _ (initQueue_QOK (mapsGenerator src))
  rw [hb] at hqok
  obtain ⟨hprop, hcode⟩ := hqok root0 (List.mem_cons_self _ _)
  have hlv : List.Perm ((buildLoop (initQueue (mapsGenerator src))).flatMap
      leafVals) ((initQueue (mapsGenerator src)).flatMap leafVals) :=
    buildLoopF_leafVals _ _
  rw [hb] at hlv
  have hlv2 : List.Perm (leafVals root0) ((mapsGenerator src).map Prod.fst) := by
    have h1 : ([root0].flatMap leafVals) = leafVals root0 := by simp
    rw [h1] at hlv
    exact hlv.trans (initQueue_leafVals (mapsGenerator src))
  refine ⟨hprop, hcode, hlv2, ?_⟩
  exact hlv2.nodup_iff.mpr (mapsGenerator_keys_nodup src)

theorem encList_eq (src : List Nat) (root0 : HNode)
    (hb : buildLoop (initQueue (mapsGenerator src)) = [root0]) :
    encList src = (mapsGenerator src).map (fun kv =>
      { val := kv.1, freq := kv.2,
        code := lookupCode (encodeNodeRoot root0) kv.1 : HuffCode }) := by
  rw [encList.eq_def, huffEncode.eq_def, hb]

theorem encList_empty_of_no_root (src : List Nat)
    (hb : ∀ root0 : HNode, buildLoop (initQueue (mapsGenerator src)) ≠ [root0]) :
    encList src = [] := by
  rw [encList.eq_def, huffEncode.eq_def]
  rcases hq : buildLoop (initQueue (mapsGenerator src)) with _ | ⟨r0, rest⟩
  · rfl
  · cases rest with
    | nil => exact absurd hq (hb r0)
    | cons r1 rest' => rfl

theorem encList_codes (src : List Nat) {e : HuffCode} (he : e ∈ encList src) :
    ∃ root0, buildLoop (initQueue (mapsGenerator src)) = [root0] ∧
      Proper root0 ∧ (e.val, e.code) ∈ codePaths root0 [] := by
  rcases hb : buildLoop (initQueue (mapsGenerator src)) with _ | ⟨r0, rest⟩
  · rw [encList_empty_of_no_root src (by simp [hb])] at he
    simp at he
  · cases rest with
    | cons r1 rest' =>
      rw [encList_empty_of_no_root src (by simp [hb])] at he
      simp at he
    | nil =>
      obtain ⟨hprop, hcode, _, hnodup⟩ := encoder_root_spec src r0 hb
      rw [encList_eq src r0 hb] at he
      obtain ⟨kv, hkv, rfl⟩ := List.mem_map.mp he
      have hmem0 : kv.1 ∈ leafVals r0 := by
        obtain ⟨_, _, hperm, _⟩ := encoder_root_spec src r0 hb
        exact hperm.symm.subset (List.mem_map_of_mem Prod.fst hkv)
      have hproot : Proper (encodeNodeRoot r0) := encodeNodeRoot_proper hprop
      have hlv : leafVals (encodeNodeRoot r0) = leafVals r0 :=
        encodeNodeRoot_leafVals hprop
      have hnd : (leafVals (encodeNodeRoot r0)).Nodup := by rw [hlv]; exact hnodup
      have hmem : kv.1 ∈ leafVals (encodeNodeRoot r0) := by rw [hlv]; exact hmem0
      obtain ⟨dc, hfind, hval, hmemc⟩ := findLeaf_mem (encodeNodeRoot r0) kv.1
        hnd hmem
      have hlook : lookupCode (encodeNodeRoot r0) kv.1 = dc.code := by
        simp [lookupCode, hfind]
      have hlc : leafCodes (encodeNodeRoot r0) = codePaths r0 [] :=
        encodeNodeRoot_leafCodes hprop hcode
      refine ⟨r0, rfl, hprop, ?_⟩
      show (kv.1, lookupCode (encodeNodeRoot r0) kv.1) ∈ codePaths r0 []
      rw [hlook, ← hlc]
      exact hmemc

/-- Walking one full root-to-leaf code from an `INTERNAL` proper node emits
exactly that leaf's symbol and resets the walk to the root: the walk never
steps to a null child and never stops early. -/
theorem walk_code {p : HNode} (hp : Proper p) :
    p.type = HType.INTERNAL →
    ∀ {v : Nat} {c : List Bool}, (v, c) ∈ codePaths p [] →
    ∀ (root : HNode) (rest : List Bool) (acc : List Nat),
      hdecodeGo root p (c ++ rest) acc = hdecodeGo root root rest (v :: acc) := by
  induction hp with
  | leaf d => intro hty; cases hty
  | node d l r hl hr ihl ihr =>
    intro _ v c hc root rest acc
    rw [codePaths] at hc
    rcases List.mem_append.mp hc with hcl | hcr
    · obtain ⟨s, rfl, hs⟩ := mem_codePaths_shift hcl
      cases hl with
      | leaf dl =>
        obtain ⟨h1, h2⟩ : v = dl.val ∧ s = [] := by
          simpa [codePaths] using hs
        subst h1
        subst h2
        simp [hdecodeGo, HNode.left, HNode.type]
      | node dl ll rl hll hrl =>
        have hrec := ihl rfl hs root rest acc
        rw [show (([] ++ [false]) ++ s) ++ rest = false :: (s ++ rest) by simp]
        rw [hdecodeGo]
        simpa [HNode.left, HNode.type] using hrec
    · obtain ⟨s, rfl, hs⟩ := mem_codePaths_shift hcr
      cases hr with
      | leaf dr =>
        obtain ⟨h1, h2⟩ : v = dr.val ∧ s = [] := by
          simpa [codePaths] using hs
        subst h1
        subst h2
        simp [hdecodeGo, HNode.right, HNode.type]
      | node dr lr rr hlr hrr =>
        have hrec := ihr rfl hs root rest acc
        rw [show (([] ++ [true]) ++ s) ++ rest = true :: (s ++ rest) by simp]
        rw [hdecodeGo]
        simpa [HNode.right, HNode.type] using hrec

/-- Decoding any concatenation of root-to-leaf codes of a proper tree with an
`INTERNAL` root succeeds (never dereferences a null child). -/
theorem hdecode_flatten_isSome (root : HNode) (hp : Proper root)
    (hty : root.type = HType.INTERNAL) :
    ∀ (cs : List (List Bool)),
      (∀ c ∈ cs, ∃ v, (v, c) ∈ codePaths root []) →
    ∀ acc, (hdecodeGo root root (cs.flatten) acc).isSome = true
  | [], _, acc => by simp [hdecodeGo]
  | c :: rest, h, acc => by
    obtain ⟨v, hv⟩ := h c (List.mem_cons_self _ _)
    rw [List.flatten_cons, walk_code hp hty hv root _ acc]
    exact hdecode_flatten_isSome root hp hty rest
      (fun c hc => h c (List.mem_cons_of_mem _ hc)) _

/-! ## Concrete inputs used to settle the claims. -/

/-- The input `"abababab"`. -/
def ababInput : List Nat := [97, 98, 97, 98, 97, 98, 97, 98]

/-- The container the encoder produces for `"abababab"` (checked below):
header (magic `.HUF`, `size = 2`, `last_length = 0`), the two table entries,
and a body of two bytes `0x55 0x00` — the second being the unconditionally
appended padding byte. -/
def ababContainer : List Nat :=
  [46, 72, 85, 70, 2, 0, 0, 0, 97, 1, 0, 0, 98, 1, 1, 0, 85, 0]

/-- The input `"aaaa"` (one distinct symbol). -/
def aaaaInput : List Nat := [97, 97, 97, 97]

/-- A container whose magic does not match `HUFF_MAGIC` (first four bytes 0)
but which is otherwise shaped like a one-entry container: size field 1,
padding field 1, one entry (symbol 97, one-bit code `1`), one body byte
`0x80`. -/
def badMagicBuf : List Nat := [0, 0, 0, 0, 1, 0, 1, 0, 97, 1, 1, 0, 128]

/-- A code table in which the first entry's code is a strict prefix of the
second entry's code. -/
def c8Table : List HuffCode := [⟨97, 1, [false]⟩, ⟨98, 1, [false, true]⟩]

/-- A maximally skewed 18-symbol frequency distribution (Fibonacci
frequencies), forcing a caterpillar Huffman tree of depth 17. -/
def fibPairs : List (Nat × Nat) :=
  [(0, 1), (1, 1), (2, 2), (3, 3), (4, 5), (5, 8), (6, 13), (7, 21), (8, 34),
   (9, 55), (10, 89), (11, 144), (12, 233), (13, 377), (14, 610), (15, 987),
   (16, 1597), (17, 2584)]

/-- The 6764-byte input realising `fibPairs`: each symbol repeated its
frequency, in ascending symbol order. -/
def fibInput : List Nat := fibPairs.flatMap (fun p => List.replicate p.2 p.1)

/-! The priority-queue states the build loop passes through on `fibPairs`
(`fibQ0` is the initial queue, `fibQk` the queue after `k` combining steps;
each is checked against `buildStep` below). Spelling them out keeps every
kernel evaluation shallow. -/

def fibQ0 : List HNode :=
  [(.mk ⟨0, 1, []⟩ .null .null .LEAF),
   (.mk ⟨1, 1, []⟩ .null .null .LEAF),
   (.mk ⟨2, 2, []⟩ .null .null .LEAF),
   (.mk ⟨3, 3, []⟩ .null .null .LEAF),
   (.mk ⟨4, 5, []⟩ .null .null .LEAF),
   (.mk ⟨5, 8, []⟩ .null .null .LEAF),
   (.mk ⟨6, 13, []⟩ .null .null .LEAF),
   (.mk ⟨7, 21, []⟩ .null .null .LEAF),
   (.mk ⟨8, 34, []⟩ .null .null .LEAF),
   (.mk ⟨9, 55, []⟩ .null .null .LEAF),
   (.mk ⟨10, 89, []⟩ .null .null .LEAF),
   (.mk ⟨11, 144, []⟩ .null .null .LEAF),
   (.mk ⟨12, 233, []⟩ .null .null .LEAF),
   (.mk ⟨13, 377, []⟩ .null .null .LEAF),
   (.mk ⟨14, 610, []⟩ .null .null .LEAF),
   (.mk ⟨15, 987, []⟩ .null .null .LEAF),
   (.mk ⟨16, 1597, []⟩ .null .null .LEAF),
   (.mk ⟨17, 2584, []⟩ .null .null .LEAF)]

def fibQ1 : List HNode :=
  [(.mk ⟨2, 2, []⟩ .null .null .LEAF),
   (.mk ⟨32, 2, []⟩ (.mk ⟨0, 1, []⟩ .null .null .LEAF) (.mk ⟨1, 1, []⟩ .null .null .LEAF) .INTERNAL),
   (.mk ⟨5, 8, []⟩ .null .null .LEAF),
   (.mk ⟨3, 3, []⟩ .null .null .LEAF),
   (.mk ⟨4, 5, []⟩ .null .null .LEAF),
   (.mk ⟨11, 144, []⟩ .null .null .LEAF),
   (.mk ⟨6, 13, []⟩ .null .null .LEAF),
   (.mk ⟨7, 21, []⟩ .null .null .LEAF),
   (.mk ⟨8, 34, []⟩ .null .null .LEAF),
   (.mk ⟨9, 55, []⟩ .null .null .LEAF),
   (.mk ⟨10, 89, []⟩ .null .null .LEAF),
   (.mk ⟨16, 1597, []⟩ .null .null .LEAF),
   (.mk ⟨12, 233, []⟩ .null .null .LEAF),
   (.mk ⟨13, 377, []⟩ .null .null .LEAF),
   (.mk ⟨14, 610, []⟩ .null .null .LEAF),
   (.mk ⟨17, 2584, []⟩ .null .null .LEAF),
   (.mk ⟨15, 987, []⟩ .null .null .LEAF)]

def fibQ2 : List HNode :=
  [(.mk ⟨3, 3, []⟩ .null .null .LEAF),
   (.mk ⟨32, 4, []⟩ (.mk ⟨2, 2, []⟩ .null .null .LEAF) (.mk ⟨32, 2, []⟩ (.mk ⟨0, 1, []⟩ .null .null .LEAF) (.mk ⟨1, 1, []⟩ .null .null .LEAF) .INTERNAL) .INTERNAL),
   (.mk ⟨5, 8, []⟩ .null .null .LEAF),
   (.mk ⟨4, 5, []⟩ .null .null .LEAF),
   (.mk ⟨9, 55, []⟩ .null .null .LEAF),
   (.mk ⟨11, 144, []⟩ .null .null .LEAF),
   (.mk ⟨6, 13, []⟩ .null .null .LEAF),
   (.mk ⟨7, 21, []⟩ .null .null .LEAF),
   (.mk ⟨8, 34, []⟩ .null .null .LEAF),
   (.mk ⟨17, 2584, []⟩ .null .null .LEAF),
   (.mk ⟨10, 89, []⟩ .null .null .LEAF),
   (.mk ⟨16, 1597, []⟩ .null .null .LEAF),
   (.mk ⟨12, 233, []⟩ .null .null .LEAF),
   (.mk ⟨13, 377, []⟩ .null .null .LEAF),
   (.mk ⟨14, 610, []⟩ .null .null .LEAF),
   (.mk ⟨15, 987, []⟩ .null .null .LEAF)]

def fibQ3 : List HNode :=
  [(.mk ⟨4, 5, []⟩ .null .null .LEAF),
   (.mk ⟨7, 21, []⟩ .null .null .LEAF),
   (.mk ⟨32, 7, []⟩ (.mk ⟨3, 3, []⟩ .null .null .LEAF) (.mk ⟨32, 4, []⟩ (.mk ⟨2, 2, []⟩ .null .null .LEAF) (.mk ⟨32, 2, []⟩ (.mk ⟨0, 1, []⟩ .null .null .LEAF) (.mk ⟨1, 1, []⟩ .null .null .LEAF) .INTERNAL) .INTERNAL) .INTERNAL),
   (.mk ⟨8, 34, []⟩ .null .null .LEAF),
   (.mk ⟨9, 55, []⟩ .null .null .LEAF),
   (.mk ⟨11, 144, []⟩ .null .null .LEAF),
   (.mk ⟨5, 8, []⟩ .null .null .LEAF),
   (.mk ⟨15, 987, []⟩ .null .null .LEAF),
   (.mk ⟨14, 610, []⟩ .null .null .LEAF),
   (.mk ⟨17, 2584, []⟩ .null .null .LEAF),
   (.mk ⟨10, 89, []⟩ .null .null .LEAF),
   (.mk ⟨16, 1597, []⟩ .null .null .LEAF),
   (.mk ⟨12, 233, []⟩ .null .null .LEAF),
   (.mk ⟨13, 377, []⟩ .null .null .LEAF),
   (.mk ⟨6, 13, []⟩ .null .null .LEAF)]

def fibQ4 : List HNode :=
  [(.mk ⟨5, 8, []⟩ .null .null .LEAF),
   (.mk ⟨7, 21, []⟩ .null .null .LEAF),
   (.mk ⟨32, 12, []⟩ (.mk ⟨4, 5, []⟩ .null .null .LEAF) (.mk ⟨32, 7, []⟩ (.mk ⟨3, 3, []⟩ .null .null .LEAF) (.mk ⟨32, 4, []⟩ (.mk ⟨2, 2, []⟩ .null .null .LEAF) (.mk ⟨32, 2, []⟩ (.mk ⟨0, 1, []⟩ .null .null .LEAF) (.mk ⟨1, 1, []⟩ .null .null .LEAF) .INTERNAL) .INTERNAL) .INTERNAL) .INTERNAL),
   (.mk ⟨8, 34, []⟩ .null .null .LEAF),
   (.mk ⟨9, 55, []⟩ .null .null .LEAF),
   (.mk ⟨11, 144, []⟩ .null .null .LEAF),
   (.mk ⟨6, 13, []⟩ .null .null .LEAF),
   (.mk ⟨15, 987, []⟩ .null .null .LEAF),
   (.mk ⟨14, 610, []⟩ .null .null .LEAF),
   (.mk ⟨17, 2584, []⟩ .null .null .LEAF),
   (.mk ⟨10, 89, []⟩ .null .null .LEAF),
   (.mk ⟨16, 1597, []⟩ .null .null .LEAF),
   (.mk ⟨12, 233, []⟩ .null .null .LEAF),
   (.mk ⟨13, 377, []⟩ .null .null .LEAF)]

def fibQ5 : List HNode :=
  [(.mk ⟨6, 13, []⟩ .null .null .LEAF),
   (.mk ⟨7, 21, []⟩ .null .null .LEAF),
   (.mk ⟨32, 20, []⟩ (.mk ⟨5, 8, []⟩ .null .null .LEAF) (.mk ⟨32, 12, []⟩ (.mk ⟨4, 5, []⟩ .null .null .LEAF) (.mk ⟨32, 7, []⟩ (.mk ⟨3, 3, []⟩ .null .null .LEAF) (.mk ⟨32, 4, []⟩ (.mk ⟨2, 2, []⟩ .null .null .LEAF) (.mk ⟨32, 2, []⟩ (.mk ⟨0, 1, []⟩ .null .null .LEAF) (.mk ⟨1, 1, []⟩ .null .null .LEAF) .INTERNAL) .INTERNAL) .INTERNAL) .INTERNAL) .INTERNAL),
   (.mk ⟨8, 34, []⟩ .null .null .LEAF),
   (.mk ⟨9, 55, []⟩ .null .null .LEAF),
   (.mk ⟨11, 144, []⟩ .null .null .LEAF),
   (.mk ⟨13, 377, []⟩ .null .null .LEAF),
   (.mk ⟨15, 987, []⟩ .null .null .LEAF),
   (.mk ⟨14, 610, []⟩ .null .null .LEAF),
   (.mk ⟨17, 2584, []⟩ .null .null .LEAF),
   (.mk ⟨10, 89, []⟩ .null .null .LEAF),
   (.mk ⟨16, 1597, []⟩ .null .null .LEAF),
   (.mk ⟨12, 233, []⟩ .null .null .LEAF)]

def fibQ6 : List HNode :=
  [(.mk ⟨7, 21, []⟩ .null .null .LEAF),
   (.mk ⟨8, 34, []⟩ .null .null .LEAF),
   (.mk ⟨32, 33, []⟩ (.mk ⟨6, 13, []⟩ .null .null .LEAF) (.mk ⟨32, 20, []⟩ (.mk ⟨5, 8, []⟩ .null .null .LEAF) (.mk ⟨32, 12, []⟩ (.mk ⟨4, 5, []⟩ .null .null .LEAF) (.mk ⟨32, 7, []⟩ (.mk ⟨3, 3, []⟩ .null .null .LEAF) (.mk ⟨32, 4, []⟩ (.mk ⟨2, 2, []⟩ .null .null .LEAF) (.mk ⟨32, 2, []⟩ (.mk ⟨0, 1, []⟩ .null .null .LEAF) (.mk ⟨1, 1, []⟩ .null .null .LEAF) .INTERNAL) .INTERNAL) .INTERNAL) .INTERNAL) .INTERNAL) .INTERNAL),
   (.mk ⟨14, 610, []⟩ .null .null .LEAF),
   (.mk ⟨9, 55, []⟩ .null .null .LEAF),
   (.mk ⟨11, 144, []⟩ .null .null .LEAF),
   (.mk ⟨13, 377, []⟩ .null .null .LEAF),
   (.mk ⟨15, 987, []⟩ .null .null .LEAF),
   (.mk ⟨16, 1597, []⟩ .null .null .LEAF),
   (.mk ⟨17, 2584, []⟩ .null .null .LEAF),
   (.mk ⟨10, 89, []⟩ .null .null .LEAF),
   (.mk ⟨12, 233, []⟩ .null .null .LEAF)]

def fibQ7 : List HNode :=
  [(.mk ⟨8, 34, []⟩ .null .null .LEAF),
   (.mk ⟨32, 54, []⟩ (.mk ⟨7, 21, []⟩ .null .null .LEAF) (.mk ⟨32, 33, []⟩ (.mk ⟨6, 13, []⟩ .null .null .LEAF) (.mk ⟨32, 20, []⟩ (.mk ⟨5, 8, []⟩ .null .null .LEAF) (.mk ⟨32, 12, []⟩ (.mk ⟨4, 5, []⟩ .null .null .LEAF) (.mk ⟨32, 7, []⟩ (.mk ⟨3, 3, []⟩ .null .null .LEAF) (.mk ⟨32, 4, []⟩ (.mk ⟨2, 2, []⟩ .null .null .LEAF) (.mk ⟨32, 2, []⟩ (.mk ⟨0, 1, []⟩ .null .null .LEAF) (.mk ⟨1, 1, []⟩ .null .null .LEAF) .INTERNAL) .INTERNAL) .INTERNAL) .INTERNAL) .INTERNAL) .INTERNAL) .INTERNAL),
   (.mk ⟨11, 144, []⟩ .null .null .LEAF),
   (.mk ⟨14, 610, []⟩ .null .null .LEAF),
   (.mk ⟨9, 55, []⟩ .null .null .LEAF),
   (.mk ⟨12, 233, []⟩ .null .null .LEAF),
   (.mk ⟨13, 377, []⟩ .null .null .LEAF),
   (.mk ⟨15, 987, []⟩ .null .null .LEAF),
   (.mk ⟨16, 1597, []⟩ .null .null .LEAF),
   (.mk ⟨17, 2584, []⟩ .null .null .LEAF),
   (.mk ⟨10, 89, []⟩ .null .null .LEAF)]

def fibQ8 : List HNode :=
  [(.mk ⟨9, 55, []⟩ .null .null .LEAF),
   (.mk ⟨32, 88, []⟩ (.mk ⟨8, 34, []⟩ .null .null .LEAF) (.mk ⟨32, 54, []⟩ (.mk ⟨7, 21, []⟩ .null .null .LEAF) (.mk ⟨32, 33, []⟩ (.mk ⟨6, 13, []⟩ .null .null .LEAF) (.mk ⟨32, 20, []⟩ (.mk ⟨5, 8, []⟩ .null .null .LEAF) (.mk ⟨32, 12, []⟩ (.mk ⟨4, 5, []⟩ .null .null .LEAF) (.mk ⟨32, 7, []⟩ (.mk ⟨3, 3, []⟩ .null .null .LEAF) (.mk ⟨32, 4, []⟩ (.mk ⟨2, 2, []⟩ .null .null .LEAF) (.mk ⟨32, 2, []⟩ (.mk ⟨0, 1, []⟩ .null .null .LEAF) (.mk ⟨1, 1, []⟩ .null .null .LEAF) .INTERNAL) .INTERNAL) .INTERNAL) .INTERNAL) .INTERNAL) .INTERNAL) .INTERNAL) .INTERNAL),
   (.mk ⟨11, 144, []⟩ .null .null .LEAF),
   (.mk ⟨14, 610, []⟩ .null .null .LEAF),
   (.mk ⟨10, 89, []⟩ .null .null .LEAF),
   (.mk ⟨12, 233, []⟩ .null .null .LEAF),
   (.mk ⟨13, 377, []⟩ .null .null .LEAF),
   (.mk ⟨15, 987, []⟩ .null .null .LEAF),
   (.mk ⟨16, 1597, []⟩ .null .null .LEAF),
   (.mk ⟨17, 2584, []⟩ .null .null .LEAF)]

def fibQ9 : List HNode :=
  [(.mk ⟨10, 89, []⟩ .null .null .LEAF),
   (.mk ⟨32, 143, []⟩ (.mk ⟨9, 55, []⟩ .null .null .LEAF) (.mk ⟨32, 88, []⟩ (.mk ⟨8, 34, []⟩ .null .null .LEAF) (.mk ⟨32, 54, []⟩ (.mk ⟨7, 21, []⟩ .null .null .LEAF) (.mk ⟨32, 33, []⟩ (.mk ⟨6, 13, []⟩ .null .null .LEAF) (.mk ⟨32, 20, []⟩ (.mk ⟨5, 8, []⟩ .null .null .LEAF) (.mk ⟨32, 12, []⟩ (.mk ⟨4, 5, []⟩ .null .null .LEAF) (.mk ⟨32, 7, []⟩ (.mk ⟨3, 3, []⟩ .null .null .LEAF) (.mk ⟨32, 4, []⟩ (.mk ⟨2, 2, []⟩ .null .null .LEAF) (.mk ⟨32, 2, []⟩ (.mk ⟨0, 1, []⟩ .null .null .LEAF) (.mk ⟨1, 1, []⟩ .null .null .LEAF) .INTERNAL) .INTERNAL) .INTERNAL) .INTERNAL) .INTERNAL) .INTERNAL) .INTERNAL) .INTERNAL) .INTERNAL),
   (.mk ⟨11, 144, []⟩ .null .null .LEAF),
   (.mk ⟨14, 610, []⟩ .null .null .LEAF),
   (.mk ⟨17, 2584, []⟩ .null .null .LEAF),
   (.mk ⟨12, 233, []⟩ .null .null .LEAF),
   (.mk ⟨13, 377, []⟩ .null .null .LEAF),
   (.mk ⟨16, 1597, []⟩ .null .null .LEAF),
   (.mk ⟨15, 987, []⟩ .null .null .LEAF)]

def fibQ10 : List HNode :=
  [(.mk ⟨11, 144, []⟩ .null .null .LEAF),
   (.mk ⟨32, 232, []⟩ (.mk ⟨10, 89, []⟩ .null .null .LEAF) (.mk ⟨32, 143, []⟩ (.mk ⟨9, 55, []⟩ .null .null .LEAF) (.mk ⟨32, 88, []⟩ (.mk ⟨8, 34, []⟩ .null .null .LEAF) (.mk ⟨32, 54, []⟩ (.mk ⟨7, 21, []⟩ .null .null .LEAF) (.mk ⟨32, 33, []⟩ (.mk ⟨6, 13, []⟩ .null .null .LEAF) (.mk ⟨32, 20, []⟩ (.mk ⟨5, 8, []⟩ .null .null .LEAF) (.mk ⟨32, 12, []⟩ (.mk ⟨4, 5, []⟩ .null .null .LEAF) (.mk ⟨32, 7, []⟩ (.mk ⟨3, 3, []⟩ .null .null .LEAF) (.mk ⟨32, 4, []⟩ (.mk ⟨2, 2, []⟩ .null .null .LEAF) (.mk ⟨32, 2, []⟩ (.mk ⟨0, 1, []⟩ .null .null .LEAF) (.mk ⟨1, 1, []⟩ .null .null .LEAF) .INTERNAL) .INTERNAL) .INTERNAL) .INTERNAL) .INTERNAL) .INTERNAL) .INTERNAL) .INTERNAL) .INTERNAL) .INTERNAL),
   (.mk ⟨12, 233, []⟩ .null .null .LEAF),
   (.mk ⟨14, 610, []⟩ .null .null .LEAF),
   (.mk ⟨17, 2584, []⟩ .null .null .LEAF),
   (.mk ⟨16, 1597, []⟩ .null .null .LEAF),
   (.mk ⟨13, 377, []⟩ .null .null .LEAF),
   (.mk ⟨15, 987, []⟩ .null .null .LEAF)]

def fibQ11 : List HNode :=
  [(.mk ⟨12, 233, []⟩ .null .null .LEAF),
   (.mk ⟨14, 610, []⟩ .null .null .LEAF),
   (.mk ⟨32, 376, []⟩ (.mk ⟨11, 144, []⟩ .null .null .LEAF) (.mk ⟨32, 232, []⟩ (.mk ⟨10, 89, []⟩ .null .null .LEAF) (.mk ⟨32, 143, []⟩ (.mk ⟨9, 55, []⟩ .null .null .LEAF) (.mk ⟨32, 88, []⟩ (.mk ⟨8, 34, []⟩ .null .null .LEAF) (.mk ⟨32, 54, []⟩ (.mk ⟨7, 21, []⟩ .null .null .LEAF) (.mk ⟨32, 33, []⟩ (.mk ⟨6, 13, []⟩ .null .null .LEAF) (.mk ⟨32, 20, []⟩ (.mk ⟨5, 8, []⟩ .null .null .LEAF) (.mk ⟨32, 12, []⟩ (.mk ⟨4, 5, []⟩ .null .null .LEAF) (.mk ⟨32, 7, []⟩ (.mk ⟨3, 3, []⟩ .null .null .LEAF) (.mk ⟨32, 4, []⟩ (.mk ⟨2, 2, []⟩ .null .null .LEAF) (.mk ⟨32, 2, []⟩ (.mk ⟨0, 1, []⟩ .null .null .LEAF) (.mk ⟨1, 1, []⟩ .null .null .LEAF) .INTERNAL) .INTERNAL) .INTERNAL) .INTERNAL) .INTERNAL) .INTERNAL) .INTERNAL) .INTERNAL) .INTERNAL) .INTERNAL) .INTERNAL),
   (.mk ⟨15, 987, []⟩ .null .null .LEAF),
   (.mk ⟨17, 2584, []⟩ .null .null .LEAF),
   (.mk ⟨16, 1597, []⟩ .null .null .LEAF),
   (.mk ⟨13, 377, []⟩ .null .null .LEAF)]

def fibQ12 : List HNode :=
  [(.mk ⟨13, 377, []⟩ .null .null .LEAF),
   (.mk ⟨14, 610, []⟩ .null .null .LEAF),
   (.mk ⟨32, 609, []⟩ (.mk ⟨12, 233, []⟩ .null .null .LEAF) (.mk ⟨32, 376, []⟩ (.mk ⟨11, 144, []⟩ .null .null .LEAF) (.mk ⟨32, 232, []⟩ (.mk ⟨10, 89, []⟩ .null .null .LEAF) (.mk ⟨32, 143, []⟩ (.mk ⟨9, 55, []⟩ .null .null .LEAF) (.mk ⟨32, 88, []⟩ (.mk ⟨8, 34, []⟩ .null .null .LEAF) (.mk ⟨32, 54, []⟩ (.mk ⟨7, 21, []⟩ .null .null .LEAF) (.mk ⟨32, 33, []⟩ (.mk ⟨6, 13, []⟩ .null .null .LEAF) (.mk ⟨32, 20, []⟩ (.mk ⟨5, 8, []⟩ .null .null .LEAF) (.mk ⟨32, 12, []⟩ (.mk ⟨4, 5, []⟩ .null .null .LEAF) (.mk ⟨32, 7, []⟩ (.mk ⟨3, 3, []⟩ .null .null .LEAF) (.mk ⟨32, 4, []⟩ (.mk ⟨2, 2, []⟩ .null .null .LEAF) (.mk ⟨32, 2, []⟩ (.mk ⟨0, 1, []⟩ .null .null .LEAF) (.mk ⟨1, 1, []⟩ .null .null .LEAF) .INTERNAL) .INTERNAL) .INTERNAL) .INTERNAL) .INTERNAL) .INTERNAL) .INTERNAL) .INTERNAL) .INTERNAL) .INTERNAL) .INTERNAL) .INTERNAL),
   (.mk ⟨15, 987, []⟩ .null .null .LEAF),
   (.mk ⟨17, 2584, []⟩ .null .null .LEAF),
   (.mk ⟨16, 1597, []⟩ .null .null .LEAF)]

def fibQ13 : List HNode :=
  [(.mk ⟨14, 610, []⟩ .null .null .LEAF),
   (.mk ⟨32, 986, []⟩ (.mk ⟨13, 377, []⟩ .null .null .LEAF) (.mk ⟨32, 609, []⟩ (.mk ⟨12, 233, []⟩ .null .null .LEAF) (.mk ⟨32, 376, []⟩ (.mk ⟨11, 144, []⟩ .null .null .LEAF) (.mk ⟨32, 232, []⟩ (.mk ⟨10, 89, []⟩ .null .null .LEAF) (.mk ⟨32, 143, []⟩ (.mk ⟨9, 55, []⟩ .null .null .LEAF) (.mk ⟨32, 88, []⟩ (.mk ⟨8, 34, []⟩ .null .null .LEAF) (.mk ⟨32, 54, []⟩ (.mk ⟨7, 21, []⟩ .null .null .LEAF) (.mk ⟨32, 33, []⟩ (.mk ⟨6, 13, []⟩ .null .null .LEAF) (.mk ⟨32, 20, []⟩ (.mk ⟨5, 8, []⟩ .null .null .LEAF) (.mk ⟨32, 12, []⟩ (.mk ⟨4, 5, []⟩ .null .null .LEAF) (.mk ⟨32, 7, []⟩ (.mk ⟨3, 3, []⟩ .null .null .LEAF) (.mk ⟨32, 4, []⟩ (.mk ⟨2, 2, []⟩ .null .null .LEAF) (.mk ⟨32, 2, []⟩ (.mk ⟨0, 1, []⟩ .null .null .LEAF) (.mk ⟨1, 1, []⟩ .null .null .LEAF) .INTERNAL) .INTERNAL) .INTERNAL) .INTERNAL) .INTERNAL) .INTERNAL) .INTERNAL) .INTERNAL) .INTERNAL) .INTERNAL) .INTERNAL) .INTERNAL) .INTERNAL),
   (.mk ⟨16, 1597, []⟩ .null .null .LEAF),
   (.mk ⟨17, 2584, []⟩ .null .null .LEAF),
   (.mk ⟨15, 987, []⟩ .null .null .LEAF)]

def fibQ14 : List HNode :=
  [(.mk ⟨15, 987, []⟩ .null .null .LEAF),
   (.mk ⟨32, 1596, []⟩ (.mk ⟨14, 610, []⟩ .null .null .LEAF) (.mk ⟨32, 986, []⟩ (.mk ⟨13, 377, []⟩ .null .null .LEAF) (.mk ⟨32, 609, []⟩ (.mk ⟨12, 233, []⟩ .null .null .LEAF) (.mk ⟨32, 376, []⟩ (.mk ⟨11, 144, []⟩ .null .null .LEAF) (.mk ⟨32, 232, []⟩ (.mk ⟨10, 89, []⟩ .null .null .LEAF) (.mk ⟨32, 143, []⟩ (.mk ⟨9, 55, []⟩ .null .null .LEAF) (.mk ⟨32, 88, []⟩ (.mk ⟨8, 34, []⟩ .null .null .LEAF) (.mk ⟨32, 54, []⟩ (.mk ⟨7, 21, []⟩ .null .null .LEAF) (.mk ⟨32, 33, []⟩ (.mk ⟨6, 13, []⟩ .null .null .LEAF) (.mk ⟨32, 20, []⟩ (.mk ⟨5, 8, []⟩ .null .null .LEAF) (.mk ⟨32, 12, []⟩ (.mk ⟨4, 5, []⟩ .null .null .LEAF) (.mk ⟨32, 7, []⟩ (.mk ⟨3, 3, []⟩ .null .null .LEAF) (.mk ⟨32, 4, []⟩ (.mk ⟨2, 2, []⟩ .null .null .LEAF) (.mk ⟨32, 2, []⟩ (.mk ⟨0, 1, []⟩ .null .null .LEAF) (.mk ⟨1, 1, []⟩ .null .null .LEAF) .INTERNAL) .INTERNAL) .INTERNAL) .INTERNAL) .INTERNAL) .INTERNAL) .INTERNAL) .INTERNAL) .INTERNAL) .INTERNAL) .INTERNAL) .INTERNAL) .INTERNAL) .INTERNAL),
   (.mk ⟨16, 1597, []⟩ .null .null .LEAF),
   (.mk ⟨17, 2584, []⟩ .null .null .LEAF)]

def fibQ15 : List HNode :=
  [(.mk ⟨16, 1597, []⟩ .null .null .LEAF),
   (.mk ⟨17, 2584, []⟩ .null .null .LEAF),
   (.mk ⟨32, 2583, []⟩ (.mk ⟨15, 987, []⟩ .null .null .LEAF) (.mk ⟨32, 1596, []⟩ (.mk ⟨14, 610, []⟩ .null .null .LEAF) (.mk ⟨32, 986, []⟩ (.mk ⟨13, 377, []⟩ .null .null .LEAF) (.mk ⟨32, 609, []⟩ (.mk ⟨12, 233, []⟩ .null .null .LEAF) (.mk ⟨32, 376, []⟩ (.mk ⟨11, 144, []⟩ .null .null .LEAF) (.mk ⟨32, 232, []⟩ (.mk ⟨10, 89, []⟩ .null .null .LEAF) (.mk ⟨32, 143, []⟩ (.mk ⟨9, 55, []⟩ .null .null .LEAF) (.mk ⟨32, 88, []⟩ (.mk ⟨8, 34, []⟩ .null .null .LEAF) (.mk ⟨32, 54, []⟩ (.mk ⟨7, 21, []⟩ .null .null .LEAF) (.mk ⟨32, 33, []⟩ (.mk ⟨6, 13, []⟩ .null .null .LEAF) (.mk ⟨32, 20, []⟩ (.mk ⟨5, 8, []⟩ .null .null .LEAF) (.mk ⟨32, 12, []⟩ (.mk ⟨4, 5, []⟩ .null .null .LEAF) (.mk ⟨32, 7, []⟩ (.mk ⟨3, 3, []⟩ .null .null .LEAF) (.mk ⟨32, 4, []⟩ (.mk ⟨2, 2, []⟩ .null .null .LEAF) (.mk ⟨32, 2, []⟩ (.mk ⟨0, 1, []⟩ .null .null .LEAF) (.mk ⟨1, 1, []⟩ .null .null .LEAF) .INTERNAL) .INTERNAL) .INTERNAL) .INTERNAL) .INTERNAL) .INTERNAL) .INTERNAL) .INTERNAL) .INTERNAL) .INTERNAL) .INTERNAL) .INTERNAL) .INTERNAL) .INTERNAL) .INTERNAL)]

def fibQ16 : List HNode :=
  [(.mk ⟨17, 2584, []⟩ .null .null .LEAF),
   (.mk ⟨32, 4180, []⟩ (.mk ⟨16, 1597, []⟩ .null .null .LEAF) (.mk ⟨32, 2583, []⟩ (.mk ⟨15, 987, []⟩ .null .null .LEAF) (.mk ⟨32, 1596, []⟩ (.mk ⟨14, 610, []⟩ .null .null .LEAF) (.mk ⟨32, 986, []⟩ (.mk ⟨13, 377, []⟩ .null .null .LEAF) (.mk ⟨32, 609, []⟩ (.mk ⟨12, 233, []⟩ .null .null .LEAF) (.mk ⟨32, 376, []⟩ (.mk ⟨11, 144, []⟩ .null .null .LEAF) (.mk ⟨32, 232, []⟩ (.mk ⟨10, 89, []⟩ .null .null .LEAF) (.mk ⟨32, 143, []⟩ (.mk ⟨9, 55, []⟩ .null .null .LEAF) (.mk ⟨32, 88, []⟩ (.mk ⟨8, 34, []⟩ .null .null .LEAF) (.mk ⟨32, 54, []⟩ (.mk ⟨7, 21, []⟩ .null .null .LEAF) (.mk ⟨32, 33, []⟩ (.mk ⟨6, 13, []⟩ .null .null .LEAF) (.mk ⟨32, 20, []⟩ (.mk ⟨5, 8, []⟩ .null .null .LEAF) (.mk ⟨32, 12, []⟩ (.mk ⟨4, 5, []⟩ .null .null .LEAF) (.mk ⟨32, 7, []⟩ (.mk ⟨3, 3, []⟩ .null .null .LEAF) (.mk ⟨32, 4, []⟩ (.mk ⟨2, 2, []⟩ .null .null .LEAF) (.mk ⟨32, 2, []⟩ (.mk ⟨0, 1, []⟩ .null .null .LEAF) (.mk ⟨1, 1, []⟩ .null .null .LEAF) .INTERNAL) .INTERNAL) .INTERNAL) .INTERNAL) .INTERNAL) .INTERNAL) .INTERNAL) .INTERNAL) .INTERNAL) .INTERNAL) .INTERNAL) .INTERNAL) .INTERNAL) .INTERNAL) .INTERNAL) .INTERNAL)]

def fibQ17 : List HNode :=
  [(.mk ⟨32, 6764, []⟩ (.mk ⟨17, 2584, []⟩ .null .null .LEAF) (.mk ⟨32, 4180, []⟩ (.mk ⟨16, 1597, []⟩ .null .null .LEAF) (.mk ⟨32, 2583, []⟩ (.mk ⟨15, 987, []⟩ .null .null .LEAF) (.mk ⟨32, 1596, []⟩ (.mk ⟨14, 610, []⟩ .null .null .LEAF) (.mk ⟨32, 986, []⟩ (.mk ⟨13, 377, []⟩ .null .null .LEAF) (.mk ⟨32, 609, []⟩ (.mk ⟨12, 233, []⟩ .null .null .LEAF) (.mk ⟨32, 376, []⟩ (.mk ⟨11, 144, []⟩ .null .null .LEAF) (.mk ⟨32, 232, []⟩ (.mk ⟨10, 89, []⟩ .null .null .LEAF) (.mk ⟨32, 143, []⟩ (.mk ⟨9, 55, []⟩ .null .null .LEAF) (.mk ⟨32, 88, []⟩ (.mk ⟨8, 34, []⟩ .null .null .LEAF) (.mk ⟨32, 54, []⟩ (.mk ⟨7, 21, []⟩ .null .null .LEAF) (.mk ⟨32, 33, []⟩ (.mk ⟨6, 13, []⟩ .null .null .LEAF) (.mk ⟨32, 20, []⟩ (.mk ⟨5, 8, []⟩ .null .null .LEAF) (.mk ⟨32, 12, []⟩ (.mk ⟨4, 5, []⟩ .null .null .LEAF) (.mk ⟨32, 7, []⟩ (.mk ⟨3, 3, []⟩ .null .null .LEAF) (.mk ⟨32, 4, []⟩ (.mk ⟨2, 2, []⟩ .null .null .LEAF) (.mk ⟨32, 2, []⟩ (.mk ⟨0, 1, []⟩ .null .null .LEAF) (.mk ⟨1, 1, []⟩ .null .null .LEAF) .INTERNAL) .INTERNAL) .INTERNAL) .INTERNAL) .INTERNAL) .INTERNAL) .INTERNAL) .INTERNAL) .INTERNAL) .INTERNAL) .INTERNAL) .INTERNAL) .INTERNAL) .INTERNAL) .INTERNAL) .INTERNAL) .INTERNAL)]

/-! ## Frequency counting on block-shaped inputs (used to evaluate the
encoder on `fibInput` without unfolding 6764 loop iterations in the kernel). -/

theorem mapInsert_append_new (m : List (Nat × Nat)) (k : Nat)
    (h : ∀ kv ∈ m, kv.1 < k) : mapInsert m k = m ++ [(k, 1)] := by
  induction m with
  | nil => rfl
  | cons kv rest ih =>
    obtain ⟨k', f⟩ := kv
    have hk : k' < k := h (k', f) (List.mem_cons_self _ _)
    simp only [mapInsert]
    rw [if_neg (by omega), if_neg (by omega)]
    rw [ih (fun kv hkv => h kv (List.mem_cons_of_mem _ hkv))]
    rfl

theorem mapInsert_append_inc (m : List (Nat × Nat)) (k f : Nat)
    (h : ∀ kv ∈ m, kv.1 < k) :
    mapInsert (m ++ [(k, f)]) k = m ++ [(k, f + 1)] := by
  induction m with
  | nil => simp [mapInsert]
  | cons kv rest ih =>
    obtain ⟨k', f'⟩ := kv
    have hk : k' < k := h (k', f') (List.mem_cons_self _ _)
    rw [List.cons_append]
    simp only [mapInsert]
    rw [if_neg (by omega), if_neg (by omega),
      ih (fun kv hkv => h kv (List.mem_cons_of_mem _ hkv))]
    rfl

theorem foldl_mapInsert_replicate (m : List (Nat × Nat)) (k f n : Nat)
    (h : ∀ kv ∈ m, kv.1 < k) :
    List.foldl mapInsert (m ++ [(k, f)]) (List.replicate n k)
      = m ++ [(k, f + n)] := by
  induction n generalizing f with
  | zero => simp
  | succ n ih =>
    rw [List.replicate_succ, List.foldl_cons, mapInsert_append_inc m k f h,
      ih (f + 1)]
    have h' : f + 1 + n = f + (n + 1) := by omega
    rw [h']

theorem foldl_mapInsert_block (m : List (Nat × Nat)) (k n : Nat)
    (hn : 0 < n) (h : ∀ kv ∈ m, kv.1 < k) :
    List.foldl mapInsert m (List.replicate n k) = m ++ [(k, n)] := by
  obtain ⟨n', rfl⟩ : ∃ n', n = n' + 1 := ⟨n - 1, by omega⟩
  rw [List.replicate_succ, List.foldl_cons, mapInsert_append_new m k h,
    foldl_mapInsert_replicate m k 1 n' h]
  have h' : 1 + n' = n' + 1 := by omega
  rw [h']

theorem mapsGen_blocks (ps : List (Nat × Nat)) :
    ∀ (m : List (Nat × Nat)), (∀ p ∈ ps, 0 < p.2) →
    (∀ kv ∈ m, ∀ p ∈ ps, kv.1 < p.1) →
    List.Pairwise (fun a b => a.1 < b.1) ps →
    List.foldl mapInsert m (ps.flatMap (fun p => List.replicate p.2 p.1))
      = m ++ ps := by
  induction ps with
  | nil => intro m _ _ _; simp
  | cons p rest ih =>
    intro m hpos hlt hsort
    rw [List.flatMap_cons, List.foldl_append,
      foldl_mapInsert_block m p.1 p.2 (hpos p (List.mem_cons_self _ _))
        (fun kv hkv => hlt kv hkv p (List.mem_cons_self _ _))]
    rw [ih (m ++ [(p.1, p.2)])
      (fun q hq => hpos q (List.mem_cons_of_mem _ hq))
      (by
        intro kv hkv q hq
        rcases List.mem_append.mp hkv with hm | hp
        · exact hlt kv hm q (List.mem_cons_of_mem _ hq)
        · have : kv = (p.1, p.2) := by simpa using hp
          subst this
          exact (List.pairwise_cons.mp hsort).1 q hq)
      (List.pairwise_cons.mp hsort).2]
    simp

theorem mapsGenerator_fibInput : mapsGenerator fibInput = fibPairs := by
  have h := mapsGen_blocks fibPairs [] (by decide) (by simp) (by decide)
  simpa [mapsGenerator, fibInput] using h

theorem initQueue_fibPairs : initQueue fibPairs = fibQ0 := by decide

theorem fibStep0 : buildStep fibQ0 = fibQ1 := by decide

theorem fibStep1 : buildStep fibQ1 = fibQ2 := by decide

theorem fibStep2 : buildStep fibQ2 = fibQ3 := by decide

theorem fibStep3 : buildStep fibQ3 = fibQ4 := by decide

theorem fibStep4 : buildStep fibQ4 = fibQ5 := by decide

theorem fibStep5 : buildStep fibQ5 = fibQ6 := by decide

theorem fibStep6 : buildStep fibQ6 = fibQ7 := by decide

theorem fibStep7 : buildStep fibQ7 = fibQ8 := by decide

theorem fibStep8 : buildStep fibQ8 = fibQ9 := by decide

theorem fibStep9 : buildStep fibQ9 = fibQ10 := by decide

theorem fibStep10 : buildStep fibQ10 = fibQ11 := by decide

theorem fibStep11 : buildStep fibQ11 = fibQ12 := by decide

theorem fibStep12 : buildStep fibQ12 = fibQ13 := by decide

theorem fibStep13 : buildStep fibQ13 = fibQ14 := by decide

theorem fibStep14 : buildStep fibQ14 = fibQ15 := by decide

theorem fibStep15 : buildStep fibQ15 = fibQ16 := by decide

theorem fibStep16 : buildStep fibQ16 = fibQ17 := by decide

theorem buildLoopF_step (fuel : Nat) (q q' : List HNode) (h2 : 2 ≤ q.length)
    (hs : buildStep q = q') : buildLoopF (fuel + 1) q = buildLoopF fuel q' := by
  simp only [buildLoopF]
  rw [if_pos h2, hs]

theorem fib_buildLoop : buildLoop (initQueue fibPairs) = fibQ17 := by
  rw [buildLoop, initQueue_fibPairs]
  rw [show (fibQ0 : List HNode).length = 18 from by decide]
  rw [buildLoopF_step 17 _ _ (by decide) fibStep0]
  rw [buildLoopF_step 16 _ _ (by decide) fibStep1]
  rw [buildLoopF_step 15 _ _ (by decide) fibStep2]
  rw [buildLoopF_step 14 _ _ (by decide) fibStep3]
  rw [buildLoopF_step 13 _ _ (by decide) fibStep4]
  rw [buildLoopF_step 12 _ _ (by decide) fibStep5]
  rw [buildLoopF_step 11 _ _ (by decide) fibStep6]
  rw [buildLoopF_step 10 _ _ (by decide) fibStep7]
  rw [buildLoopF_step 9 _ _ (by decide) fibStep8]
  rw [buildLoopF_step 8 _ _ (by decide) fibStep9]
  rw [buildLoopF_step 7 _ _ (by decide) fibStep10]
  rw [buildLoopF_step 6 _ _ (by decide) fibStep11]
  rw [buildLoopF_step 5 _ _ (by decide) fibStep12]
  rw [buildLoopF_step 4 _ _ (by decide) fibStep13]
  rw [buildLoopF_step 3 _ _ (by decide) fibStep14]
  rw [buildLoopF_step 2 _ _ (by decide) fibStep15]
  rw [buildLoopF_step 1 _ _ (by decide) fibStep16]
  decide

/-! ## The claims settled by evaluation (concrete failing inputs). -/

/-- Claim C1: the round trip is NOT the identity on every byte sequence: for
the input `"abababab"` the encoder succeeds, but decoding its container
appends eight spurious `'a'` bytes (the decoder consumes the unconditional
padding byte as data because `last_length = 0`), so `decode (encode b) ≠ b`.
(For the empty input the encoder does not even produce a container, see C4.) -/
theorem c1_roundtrip_code_bug :
    (encoderWrite ababInput).bind (decoderRun 0 0)
      = some (ababInput ++ List.replicate 8 97)
    ∧ ababInput ++ List.replicate 8 97 ≠ ababInput := by
  constructor
  · decide
  · decide

/-- Claim C2: the packed body is NOT `ceil(L/8)` bytes: `write_contents`
always appends one extra byte, so for `"abababab"` (a bit stream of length
`L = 8`) the body is 2 bytes, not the claimed 1. -/
theorem c2_body_extra_byte :
    (encDst ababInput).length = 8
    ∧ (writeContents (encDst ababInput)).length = 2
    ∧ (writeContents (encDst ababInput)).length ≠ 1 := by
  refine ⟨by decide, by decide, by decide⟩

/-- Claim C3: decoding does NOT consume exactly `L` bits: for the
`"abababab"` container (body `0x55 0x00`, `last_length = 0`) `read_contents`
hands the tree walk 16 bits although the encoded stream had `L = 8` — the 8
padding bits of the extra byte are fed to the walk and emit spurious
symbols. -/
theorem c3_decoder_overconsumes :
    encoderWrite ababInput = some ababContainer
    ∧ (decReadContents ababContainer 2 0).length = 16
    ∧ (encDst ababInput).length = 8 := by
  refine ⟨by decide, by decide, by decide⟩

/-- Claim C4: on the empty input the encoder does NOT short-circuit to an
empty container: `_build` runs unconditionally, the priority queue stays
empty, and `assert(q.size() == 1)` fails (modelled as `none`) — no container
with `symbol_count = 0` is ever produced. -/
theorem c4_empty_input_assert : encoderWrite [] = none := by decide

/-- Claim C5: for a single-distinct-symbol input the tree is a lone leaf
root, but its assigned code is the EMPTY bit string, not a one-bit code:
`__encode_node` skips the root, so nothing is ever assigned. -/
theorem c5_single_symbol_empty_code :
    (encRoot aaaaInput).type = HType.LEAF
    ∧ (encRoot aaaaInput).left = HNode.null
    ∧ (encRoot aaaaInput).right = HNode.null
    ∧ (encList aaaaInput).map HuffCode.code = [[]] := by
  refine ⟨by decide, by decide, by decide, by decide⟩

/-- Claim C6: a magic mismatch is detected by `read_head` (it returns `-1`)
but the decode call does NOT fail and output IS emitted: `read()` discards
the `-1` and runs the whole pipeline on uninitialised `entry_size` /
`last_length` members (here both happening to hold 1), producing the output
byte 97. -/
theorem c6_magic_mismatch_ignored :
    decReadHead badMagicBuf = (-1, none)
    ∧ decoderRun 1 1 badMagicBuf = some [97] := by
  refine ⟨by decide, by decide⟩

/-- Claim C7: a code longer than the 16-bit `huff_entry::code` field is NOT
detected: on the Fibonacci-skewed input `fibInput` the two rarest symbols get
17-bit codes, the encoder still succeeds (`isSome`), and the round trip
through the serialized entry (`bitset<16>` keeping the first 16 characters,
`convert_uint16_to_01_str` reading `length` bits back) no longer reproduces
the assigned code — silent truncation. -/
theorem c7_code_overflow_truncated :
    (encList fibInput).map (fun e => (e.val, e.code.length))
      = [(0, 17), (1, 17), (2, 16), (3, 15), (4, 14), (5, 13), (6, 12),
         (7, 11), (8, 10), (9, 9), (10, 8), (11, 7), (12, 6), (13, 5),
         (14, 4), (15, 3), (16, 2), (17, 1)]
    ∧ (huffEncode fibInput).isSome = true
    ∧ ((encList fibInput).map (fun e =>
          natToBits (bitsToNat (e.code.take 16)) e.code.length == e.code)).getD
        0 true = false := by
  refine ⟨?_, ?_, ?_⟩
  · rw [encList.eq_def, huffEncode.eq_def, mapsGenerator_fibInput, fib_buildLoop]
    decide
  · rw [huffEncode.eq_def, mapsGenerator_fibInput, fib_buildLoop]
    decide
  · rw [encList.eq_def, huffEncode.eq_def, mapsGenerator_fibInput, fib_buildLoop]
    decide


/-- Claim C8: a code table with a strict prefix conflict is NOT rejected:
`huff_tree::build` silently overwrites the first entry's leaf with the second
entry's data, so the rebuilt tree decodes the bit string `0` to symbol 98 and
symbol 97 is lost — reconstruction neither fails nor preserves both
entries. -/
theorem c8_code_table_conflict_merged :
    strictPre (c8Table.getD 0 ⟨0, 0, []⟩).code (c8Table.getD 1 ⟨0, 0, []⟩).code
    ∧ hdecode (hrebuild c8Table) [false] = some [98] := by
  exact ⟨⟨[true], by decide, by decide⟩, by decide⟩

/-- Claim C9: the code mapping the encoder assigns is prefix-free — for any
input and any two entries of the encoder's code table (`_list`) holding
distinct symbols, neither entry's code is a strict prefix of the other's. -/
theorem c9_codes_prefix_free (src : List Nat) (e1 e2 : HuffCode)
    (h1 : e1 ∈ encList src) (h2 : e2 ∈ encList src)
    (hv : e1.val ≠ e2.val) : ¬ strictPre e1.code e2.code := by
  obtain ⟨r0, hb, _, hm1⟩ := encList_codes src h1
  obtain ⟨r0', hb', _, hm2⟩ := encList_codes src h2
  have he : r0' = r0 := by
    rw [hb] at hb'
    injection hb' with hx _
    exact hx.symm
  rw [he] at hm2
  have hpw := codePaths_pairwise r0 []
  have hsymm : Symmetric (fun a b : Nat × List Bool =>
      ¬ isPre a.2 b.2 ∧ ¬ isPre b.2 a.2) := fun a b h => ⟨h.2, h.1⟩
  have hne : (e1.val, e1.code) ≠ (e2.val, e2.code) := by
    intro hcontra
    exact hv (congrArg Prod.fst hcontra)
  have hR := List.Pairwise.forall hsymm hpw hm1 hm2 hne
  intro hs
  exact hR.1 (strictPre_isPre hs)

/-- Claim C9, witness: for the input `"ab"` the two assigned one-bit codes
`0` and `1` are not prefixes of one another. -/
theorem c9_codes_prefix_free_witness : ¬ strictPre [false] [true] :=
  c9_codes_prefix_free [97, 98] ⟨97, 1, [false]⟩ ⟨98, 1, [true]⟩
    (by decide) (by decide) (by decide)

/-- Claim C10: for an input with at least two distinct byte values the
encoder-built tree is a full binary tree (`Proper`: every internal node has
two non-null children, every leaf holds a symbol) with an `INTERNAL` root,
and the bit-by-bit decode walk applied to any concatenation of assigned
codes never steps to a null child (`isSome`: the null-dereference branch of
`huff_tree::decode` is not reached). -/
theorem c10_decode_walk_safe (src : List Nat)
    (h : 2 ≤ (mapsGenerator src).length) :
    Proper (encRoot src) ∧ (encRoot src).type = HType.INTERNAL ∧
    ∀ cs : List (List Bool), (∀ c ∈ cs, ∃ e ∈ encList src, e.code = c) →
      (hdecode (encRoot src) cs.flatten).isSome = true := by
  have hql : 2 ≤ (initQueue (mapsGenerator src)).length := by
    rw [initQueue_length]
    exact h
  obtain ⟨dd, l, r, hb⟩ := buildLoop_internal _ hql
  obtain ⟨hprop, hcode, _, _⟩ := encoder_root_spec src _ hb
  have hroot : encRoot src = encodeNodeRoot (HNode.mk dd l r .INTERNAL) := by
    rw [encRoot.eq_def, huffEncode.eq_def, hb]
  have hproot : Proper (encRoot src) := by
    rw [hroot]
    exact encodeNodeRoot_proper hprop
  have htyroot : (encRoot src).type = HType.INTERNAL := by
    rw [hroot, encodeNodeRoot_type]
    rfl
  refine ⟨hproot, htyroot, ?_⟩
  intro cs hcs
  refine hdecode_flatten_isSome _ hproot htyroot cs ?_ []
  intro c hc
  obtain ⟨e, hel, hec⟩ := hcs c hc
  obtain ⟨root0', hb', _, hmem⟩ := encList_codes src hel
  have he : root0' = HNode.mk dd l r .INTERNAL := by
    rw [hb] at hb'
    injection hb' with hx _
    exact hx.symm
  subst he
  have hcp : codePaths (encRoot src) []
      = codePaths (HNode.mk dd l r .INTERNAL) [] := by
    rw [hroot]
    exact encodeNodeRoot_codePaths hprop []
  refine ⟨e.val, ?_⟩
  rw [hcp, ← hec]
  exact hmem

/-- Claim C10, witness: for the input `"ab"` (two distinct symbols), decoding
the concatenation of the two assigned codes `0` and `1` succeeds. -/
theorem c10_decode_walk_safe_witness :
    (hdecode (encRoot [97, 98]) ([[false], [true]].flatten)).isSome = true :=
  (c10_decode_walk_safe [97, 98] (by decide)).2.2 [[false], [true]] (by decide)

end Huffman
